import Mathlib

/-
Verification of the HookManager runtime-patching core of the repository
(src/main.py).  Dotted paths are modelled as lists of characters, the
Python module space as a `World` holding the set of importable module
names and a flat map from (module, attribute-chain) keys to the value
currently stored at that attribute slot.  Each HookManager method is
translated into a function returning the final manager state, the final
world, and an optional raised error, so that Python's
mutate-then-raise behaviour (e.g. `restore` popping the record before
`_set_attr` can raise) is represented faithfully.
-/

deriving instance DecidableEq for Except

namespace HookM

/-- Python strings, modelled as lists of characters. -/
abbrev Str := List Char

/-- A resolved target key: (module identifier, attribute chain).  The
source keys `self.originals` by `(module, tuple(attr_path))` where
`module` is the imported module OBJECT (src/main.py line 75).  In the
name-keyed model below the identifier is the dotted import name, which
is adequate for scenarios involving a single path; CPython lets two
distinct importable names denote one module object (`os.path` and
`posixpath`), and that object identity is modelled separately by
`AWorld`/`aresolve` with an explicit alias map, keys then being
(canonical object, attribute chain). -/
abbrev Key := Str × List Str

/-- Embedding of Python's `str.split('.')`: splits on the dot separator,
keeping empty fields; the empty string yields `[[]]` (Python's `['']`). -/
def splitD : Str → List Str
  | [] => [[]]
  | c :: cs =>
    if c = '.' then [] :: splitD cs
    else
      match splitD cs with
      | p :: ps => (c :: p) :: ps
      | [] => [[c]]

/-- Embedding of Python's `'.'.join`: interleaves the dot separator. -/
def joinD : List Str → Str
  | [] => []
  | [p] => p
  | p :: ps => p ++ '.' :: joinD ps

/-- Runtime values stored at attribute slots.  `vmod` is a module object
(what `_get_attr(module, [])` returns), `prim` an opaque callable with
semantics `primSem`, `printWrap` the closure built by `patch_print`
(message plus captured original), and `rebound` the function rebuilt by
`patch_function` (the globals augmentation is not observable here: the
rebound function runs the same code as its argument). -/
inductive Value where
  | vnat : Nat → Value
  | vmod : Str → Value
  | prim : Nat → Value
  | printWrap : Str → Value → Value
  | rebound : Value → Value
deriving DecidableEq, Repr

/-- Fixed semantics of opaque primitive callables (id applied to the
argument list); calls take a list of naturals and produce printed output
plus a result. -/
def primSem (n : Nat) (args : List Nat) : Nat :=
  n + args.sum

/-- Calling a value: non-callables fail (`none`, Python's TypeError); a
`printWrap` closure prints its message and then delegates to the captured
original with the same arguments, returning its result unchanged
(src/main.py lines 90-92); a rebound function runs its underlying code. -/
def callValue : Value → List Nat → Option (List Str × Nat)
  | .vnat _, _ => none
  | .vmod _, _ => none
  | .prim n, args => some ([], primSem n args)
  | .printWrap msg orig, args =>
    (callValue orig args).map (fun o => (msg :: o.1, o.2))
  | .rebound f, args => callValue f args

/-- The ambient Python process: which dotted module names
`importlib.import_module` accepts, the value at each (module, non-empty
attribute chain) slot, and the module-level `WrapperinitEnd` flag.
Attribute slots are kept as a flat association list keyed by the full
chain; the manager only ever writes a slot it has previously read, so
intermediate-hop failures of `_set_attr` cannot arise and are not
represented. -/
structure World where
  importable : List Str
  live : List (Key × Value)
  wrapperInitEnd : Bool
deriving DecidableEq, Repr

/-- HookManager state: `originals` is the `{(module, attr_path):
original}` dictionary (association list, no duplicate keys are ever
inserted) and `hooked` the set of hooked path strings. -/
structure HM where
  originals : List (Key × Value)
  hooked : List Str
deriving DecidableEq, Repr

/-- Errors a resolution can raise: the final `ModuleNotFoundError` of
`_resolve_target`, or the `ValueError` that `importlib.import_module`
raises on an empty module name (uncaught by the
`except ModuleNotFoundError` clause). -/
inductive RErr where
  | moduleNotFound : RErr
  | valueError : RErr
deriving DecidableEq, Repr

/-- Errors a HookManager method can raise: the typed HookManagerError
codes, plus the untyped Python exceptions that can escape
(`AttributeError` from `_get_attr`, `IndexError` from `_set_attr` on an
empty chain, and resolution failures). -/
inductive HErr where
  | resolveFail : RErr → HErr
  | attributeError : HErr
  | alreadyHooked : HErr
  | notHooked : HErr
  | notPatched : HErr
  | indexError : HErr
deriving DecidableEq, Repr

/-- Outcome of one HookManager method call: final manager state, final
world, and the raised error if any.  State reached before a raise is
kept, matching Python exception semantics. -/
structure Res where
  hm : HM
  world : World
  err : Option HErr
deriving DecidableEq, Repr

/-- Dictionary lookup on an association list (Python `dict` access). -/
def dlookup (k : Key) : List (Key × Value) → Option Value
  | [] => none
  | e :: rest => if e.1 = k then some e.2 else dlookup k rest

/-- Dictionary removal (Python `dict.pop`). -/
def dremove (k : Key) (l : List (Key × Value)) : List (Key × Value) :=
  l.filter (fun e => decide (e.1 ≠ k))

/-- Dictionary insertion (Python `d[k] = v`). -/
def dinsert (k : Key) (v : Value) (l : List (Key × Value)) : List (Key × Value) :=
  (k, v) :: dremove k l

/-- Set insertion (Python `set.add`). -/
def setAdd (p : Str) (l : List Str) : List Str :=
  if p ∈ l then l else p :: l

/-- Set removal (Python `set.discard`: no error when absent). -/
def setDiscard (p : Str) (l : List Str) : List Str :=
  l.filter (fun q => decide (q ≠ p))

/-- Embedding of `importlib.import_module` probing: the empty name
raises `ValueError` (CPython `_sanity_check`), any other name succeeds
exactly when the world lists it as importable, and otherwise raises
`ModuleNotFoundError`. -/
def importResult (w : World) (name : Str) : Except RErr Unit :=
  if name = [] then .error .valueError
  else if name ∈ w.importable then .ok ()
  else .error .moduleNotFound

/-- True when probing `name` imports successfully. -/
def importOkB (w : World) (name : Str) : Bool :=
  match importResult w name with
  | .ok _ => true
  | .error _ => false

/-- The descending loop of `_resolve_target` (src/main.py lines 50-57):
`n` counts the remaining candidate prefix lengths, so the call with
`n = parts.length` probes prefixes of length `parts.length`, then
`parts.length - 1`, ... down to 1; only `ModuleNotFoundError` is caught
and continues the loop, a `ValueError` propagates, and exhausting the
loop raises the final `ModuleNotFoundError` (line 58). -/
def resolveAux (w : World) (parts : List Str) : Nat → Except RErr Key
  | 0 => .error .moduleNotFound
  | n + 1 =>
    match importResult w (joinD (parts.take (n + 1))) with
    | .ok _ => .ok (joinD (parts.take (n + 1)), parts.drop (n + 1))
    | .error .moduleNotFound => resolveAux w parts n
    | .error .valueError => .error .valueError

/-- `HookManager._resolve_target`: split the dotted path and search for
the longest importable prefix; the suffix parts form the attribute
chain. -/
def resolve (w : World) (p : Str) : Except RErr Key :=
  resolveAux w (splitD p) (splitD p).length

/-- `HookManager._get_attr` applied to a freshly imported module and a
chain: an empty chain returns the module object itself; a non-empty chain
yields the value at the slot, or `none` (AttributeError) when absent. -/
def getAttr (w : World) (m : Str) (chain : List Str) : Option Value :=
  match chain with
  | [] => some (.vmod m)
  | _ :: _ => dlookup (m, chain) w.live

/-- `HookManager._set_attr` (src/main.py lines 65-68): on an empty chain
`attr_path[-1]` raises `IndexError`; otherwise the final attribute of the
chain is assigned. -/
def setAttr (w : World) (m : Str) (chain : List Str) (v : Value) : Except HErr World :=
  match chain with
  | [] => .error .indexError
  | _ :: _ => .ok { w with live := dinsert (m, chain) v w.live }

/-- `HookManager.hook` (src/main.py lines 73-80): resolve, fail with
AlreadyHooked when a record exists for the key, otherwise capture the
current live value as the original and mark the path hooked. -/
def hook (w : World) (s : HM) (p : Str) : Res :=
  match resolve w p with
  | .error e => ⟨s, w, some (.resolveFail e)⟩
  | .ok (m, chain) =>
    if (dlookup (m, chain) s.originals).isSome then ⟨s, w, some .alreadyHooked⟩
    else
      match getAttr w m chain with
      | none => ⟨s, w, some .attributeError⟩
      | some v =>
        ⟨{ originals := dinsert (m, chain) v s.originals,
           hooked := setAdd p s.hooked }, w, none⟩

/-- `HookManager.patch_print` (src/main.py lines 82-95): resolve, fail
with NotHooked when no record exists, otherwise assign a wrapper closing
over the stored original; the record itself is not modified. -/
def patch_print (w : World) (s : HM) (p : Str) (msg : Str) : Res :=
  match resolve w p with
  | .error e => ⟨s, w, some (.resolveFail e)⟩
  | .ok (m, chain) =>
    match dlookup (m, chain) s.originals with
    | none => ⟨s, w, some .notHooked⟩
    | some original =>
      match setAttr w m chain (.printWrap msg original) with
      | .error e => ⟨s, w, some e⟩
      | .ok w2 => ⟨s, w2, none⟩

/-- `HookManager.patch_function` (src/main.py lines 97-134): resolve,
fail with NotHooked when no record exists, otherwise assign the rebound
function and only then set the global `WrapperinitEnd` flag (line 134
runs after `_set_attr`, so a raise leaves the flag untouched). -/
def patch_function (w : World) (s : HM) (p : Str) (f : Value) : Res :=
  match resolve w p with
  | .error e => ⟨s, w, some (.resolveFail e)⟩
  | .ok (m, chain) =>
    match dlookup (m, chain) s.originals with
    | none => ⟨s, w, some .notHooked⟩
    | some _ =>
      match setAttr w m chain (.rebound f) with
      | .error e => ⟨s, w, some e⟩
      | .ok w2 => ⟨s, { w2 with wrapperInitEnd := true }, none⟩

/-- `HookManager.restore` (src/main.py lines 136-145): resolve, fail
with NotHooked when no record exists, otherwise pop the record and write
the stored original back; the pop happens before `_set_attr` runs, so a
raise inside `_set_attr` leaves the record removed and the hooked marker
still present. -/
def restore (w : World) (s : HM) (p : Str) : Res :=
  match resolve w p with
  | .error e => ⟨s, w, some (.resolveFail e)⟩
  | .ok (m, chain) =>
    match dlookup (m, chain) s.originals with
    | none => ⟨s, w, some .notHooked⟩
    | some v =>
      let s2 : HM := { s with originals := dremove (m, chain) s.originals }
      match setAttr w m chain v with
      | .error e => ⟨s2, w, some e⟩
      | .ok w2 => ⟨{ s2 with hooked := setDiscard p s2.hooked }, w2, none⟩

/-- `HookManager.unhook_target` (src/main.py lines 147-154): resolve,
fail with NotHooked when no record exists, otherwise drop the record and
marker without touching the live attribute. -/
def unhook_target (w : World) (s : HM) (p : Str) : Res :=
  match resolve w p with
  | .error e => ⟨s, w, some (.resolveFail e)⟩
  | .ok (m, chain) =>
    match dlookup (m, chain) s.originals with
    | none => ⟨s, w, some .notHooked⟩
    | some _ =>
      ⟨{ originals := dremove (m, chain) s.originals,
         hooked := setDiscard p s.hooked }, w, none⟩

/-- `HookManager.unhook` (src/main.py lines 156-163), the spec's
`restore_all`: fail with NotPatched when the store is empty, otherwise
log each record and clear both the store and the hooked set; no stored
original is written back to its live attribute. -/
def unhook (w : World) (s : HM) : Res :=
  if s.originals.isEmpty then ⟨s, w, some .notPatched⟩
  else ⟨{ originals := [], hooked := [] }, w, none⟩

/-- One patch call on a fixed path: either `patch_print` with a message
or `patch_function` with a replacement callable. -/
inductive PatchCall where
  | pr : Str → PatchCall
  | fn : Value → PatchCall
deriving DecidableEq, Repr

/-- Run one patch call against the manager. -/
def patchStep (w : World) (s : HM) (p : Str) : PatchCall → Res
  | .pr msg => patch_print w s p msg
  | .fn f => patch_function w s p f

/-- Run a sequence of patch calls on the same path, threading the state
through (raised errors propagate state, as a caller catching exceptions
would observe). -/
def runPatches (w : World) (s : HM) (p : Str) : List PatchCall → HM × World
  | [] => (s, w)
  | c :: cs =>
    let r := patchStep w s p c
    runPatches r.world r.hm p cs

/-- One HookManager method invocation, for reasoning about sequences of
operations. -/
inductive Op where
  | hookOp : Str → Op
  | patchPrintOp : Str → Str → Op
  | patchFnOp : Str → Value → Op
  | restoreOp : Str → Op
  | detachOp : Str → Op
deriving DecidableEq, Repr

/-- Dispatch one operation. -/
def step (w : World) (s : HM) : Op → Res
  | .hookOp p => hook w s p
  | .patchPrintOp p msg => patch_print w s p msg
  | .patchFnOp p f => patch_function w s p f
  | .restoreOp p => restore w s p
  | .detachOp p => unhook_target w s p

/-- Run a sequence of operations, threading the state through and
recording whether any of them raised the untyped `IndexError`. -/
def runOps (w : World) (s : HM) : List Op → HM × World × Bool
  | [] => (s, w, false)
  | op :: ops =>
    let r := step w s op
    let rest := runOps r.world r.hm ops
    (rest.1, rest.2.1, (r.err = some .indexError) || rest.2.2)

/-- The candidate module-name prefix of length `i` probed by
`_resolve_target`. -/
def candidate (p : Str) (i : Nat) : Str :=
  joinD ((splitD p).take i)

/-- Splitting never yields an empty list of parts. -/
theorem splitD_ne_nil (s : Str) : splitD s ≠ [] := by
  cases s with
  | nil => simp [splitD]
  | cons c cs =>
    by_cases h : c = '.'
    · simp [splitD, h]
    · simp only [splitD, if_neg h]
      cases hsp : splitD cs with
      | nil => simp
      | cons p ps => simp

/-- Prepending a character to the first part prepends it to the join. -/
theorem joinD_cons_head (c : Char) (p : Str) (ps : List Str) :
    joinD ((c :: p) :: ps) = c :: joinD (p :: ps) := by
  cases ps <;> rfl

/-- Joining undoes splitting: the round trip of `'.'.join` after
`str.split('.')` is the identity. -/
theorem joinD_splitD (s : Str) : joinD (splitD s) = s := by
  induction s with
  | nil => rfl
  | cons c cs ih =>
    by_cases h : c = '.'
    · subst h
      have h1 : splitD ('.' :: cs) = [] :: splitD cs := by simp [splitD]
      rw [h1]
      cases hsp : splitD cs with
      | nil => exact absurd hsp (splitD_ne_nil cs)
      | cons p ps =>
        have h2 : joinD ([] :: p :: ps) = '.' :: joinD (p :: ps) := rfl
        rw [hsp] at ih
        rw [h2, ih]
    · cases hsp : splitD cs with
      | nil => exact absurd hsp (splitD_ne_nil cs)
      | cons p ps =>
        have h1 : splitD (c :: cs) = (c :: p) :: ps := by
          simp only [splitD, if_neg h, hsp]
        rw [hsp] at ih
        rw [h1, joinD_cons_head, ih]

/-- Joining distributes over append of two non-empty part lists. -/
theorem joinD_append (l1 l2 : List Str) (h1 : l1 ≠ []) (h2 : l2 ≠ []) :
    joinD (l1 ++ l2) = joinD l1 ++ '.' :: joinD l2 := by
  induction l1 with
  | nil => exact absurd rfl h1
  | cons x r ih =>
    cases r with
    | nil =>
      cases l2 with
      | nil => exact absurd rfl h2
      | cons y l2t => rfl
    | cons y rt =>
      have h3 : joinD ((x :: y :: rt) ++ l2) = x ++ '.' :: joinD ((y :: rt) ++ l2) := rfl
      rw [h3, ih (by simp)]
      simp [joinD]

/-- A join is empty only for no parts or a single empty part. -/
theorem joinD_eq_nil {l : List Str} (h : joinD l = []) : l = [] ∨ l = [[]] := by
  cases l with
  | nil => exact Or.inl rfl
  | cons x r =>
    cases r with
    | nil =>
      simp only [joinD] at h
      exact Or.inr (by rw [h])
    | cons y rt =>
      have h3 : joinD (x :: y :: rt) = x ++ '.' :: joinD (y :: rt) := rfl
      rw [h3] at h
      rcases List.append_eq_nil.mp h with ⟨_, h5⟩
      exact absurd h5 (by simp)

/-- Looking up a freshly inserted key finds the new value. -/
theorem dlookup_dinsert_self (k : Key) (v : Value) (l : List (Key × Value)) :
    dlookup k (dinsert k v l) = some v := by
  simp [dinsert, dlookup]

/-- Removing a key makes its lookup fail. -/
theorem dlookup_dremove_self (k : Key) (l : List (Key × Value)) :
    dlookup k (dremove k l) = none := by
  induction l with
  | nil => rfl
  | cons e rest ih =>
    by_cases h : e.1 = k
    · simpa [dremove, h] using ih
    · simpa [dremove, dlookup, h] using ih

/-- Unfolding `dict.pop` on a cons cell. -/
theorem dremove_cons (k : Key) (e : Key × Value) (rest : List (Key × Value)) :
    dremove k (e :: rest) =
      if e.1 = k then dremove k rest else e :: dremove k rest := by
  by_cases he : e.1 = k <;> simp [dremove, he]

/-- Removing one key leaves other lookups unchanged. -/
theorem dlookup_dremove_ne {k' k : Key} (h : k' ≠ k) (l : List (Key × Value)) :
    dlookup k' (dremove k l) = dlookup k' l := by
  induction l with
  | nil => rfl
  | cons e rest ih =>
    rw [dremove_cons]
    by_cases he : e.1 = k
    · rw [if_pos he, ih]
      have he2 : e.1 ≠ k' := by rw [he]; exact fun hh => h hh.symm
      simp only [dlookup, if_neg he2]
    · rw [if_neg he]
      simp only [dlookup]
      by_cases he2 : e.1 = k'
      · rw [if_pos he2, if_pos he2]
      · rw [if_neg he2, if_neg he2, ih]

/-- Inserting one key leaves other lookups unchanged. -/
theorem dlookup_dinsert_ne {k' k : Key} (h : k' ≠ k) (v : Value) (l : List (Key × Value)) :
    dlookup k' (dinsert k v l) = dlookup k' l := by
  have h2 : k ≠ k' := fun hh => h hh.symm
  simp [dinsert, dlookup, h2, dlookup_dremove_ne h]

/-- A successful lookup needs a non-empty dictionary. -/
theorem dlookup_isSome_not_isEmpty {k : Key} {l : List (Key × Value)}
    (h : (dlookup k l).isSome = true) : l.isEmpty = false := by
  cases l with
  | nil => simp [dlookup] at h
  | cons e rest => rfl

/-- Membership after `set.add`. -/
theorem mem_setAdd_iff {q p : Str} {l : List Str} :
    q ∈ setAdd p l ↔ q = p ∨ q ∈ l := by
  by_cases h : p ∈ l
  · simp only [setAdd, if_pos h]
    constructor
    · exact Or.inr
    · rintro (rfl | hq)
      · exact h
      · exact hq
  · simp [setAdd, if_neg h]

/-- `set.discard` removes the discarded element. -/
theorem not_mem_setDiscard_self (p : Str) (l : List Str) : p ∉ setDiscard p l := by
  simp [setDiscard, List.mem_filter]

/-- Membership after `set.discard`. -/
theorem mem_setDiscard_iff {q p : Str} {l : List Str} :
    q ∈ setDiscard p l ↔ q ∈ l ∧ q ≠ p := by
  simp [setDiscard, List.mem_filter]

/-- A successful probe means the name imports. -/
theorem importOkB_true_iff {w : World} {name : Str} :
    importOkB w name = true ↔ importResult w name = .ok () := by
  unfold importOkB
  cases h : importResult w name with
  | ok u => cases u; simp
  | error e => simp

/-- A `ValueError` probe pins the candidate down to the empty name. -/
theorem importResult_valueError_eq {w : World} {name : Str}
    (h : importResult w name = .error .valueError) : name = [] := by
  by_cases hn : name = []
  · exact hn
  · by_cases hm : name ∈ w.importable
    · simp [importResult, hn, hm] at h
    · simp [importResult, hn, hm] at h

/-- The descending search returns the longest importable candidate
prefix together with the exact remaining suffix, provided any candidate
in range imports at all. -/
theorem resolveAux_longest {w : World} {parts : List Str} :
    ∀ {n : Nat}, n ≤ parts.length →
      ∀ {i0 : Nat}, 1 ≤ i0 → i0 ≤ n →
        importOkB w (joinD (parts.take i0)) = true →
        ∃ i, 1 ≤ i ∧ i ≤ n ∧ importOkB w (joinD (parts.take i)) = true ∧
          (∀ j, j ≤ n → i < j → importOkB w (joinD (parts.take j)) = false) ∧
          resolveAux w parts n = .ok (joinD (parts.take i), parts.drop i) := by
  intro n
  induction n with
  | zero => intro _ i0 h1 h2 _; omega
  | succ n ih =>
    intro hn i0 h1 h2 h3
    cases himp : importResult w (joinD (parts.take (n + 1))) with
    | ok u =>
      cases u
      refine ⟨n + 1, by omega, le_refl _, importOkB_true_iff.mpr himp, ?_, ?_⟩
      · intro j hj1 hj2; omega
      · simp only [resolveAux, himp]
    | error e =>
      cases e with
      | moduleNotFound =>
        have hnot : importOkB w (joinD (parts.take (n + 1))) = false := by
          unfold importOkB; rw [himp]
        have hi0n : i0 ≤ n := by
          rcases Nat.lt_or_ge i0 (n + 1) with hlt | hge
          · omega
          · have : i0 = n + 1 := by omega
            rw [this] at h3
            rw [h3] at hnot
            simp at hnot
        obtain ⟨i, hi1, hi2, hok, hmax, hres⟩ := ih (by omega) h1 hi0n h3
        refine ⟨i, hi1, by omega, hok, ?_, ?_⟩
        · intro j hj1 hj2
          rcases Nat.lt_or_ge j (n + 1) with hlt | hge
          · exact hmax j (by omega) hj2
          · have : j = n + 1 := by omega
            rw [this]; exact hnot
        · simp only [resolveAux, himp]; exact hres
      | valueError =>
        have hnil := importResult_valueError_eq himp
        rcases joinD_eq_nil hnil with hcase | hcase
        · have := List.take_eq_nil_iff.mp hcase
          rcases this with h5 | h5
          · omega
          · rw [h5] at hn; simp at hn
        · have hlen : (parts.take (n + 1)).length = 1 := by rw [hcase]; rfl
          rw [List.length_take] at hlen
          have hn1 : n + 1 = 1 := by omega
          have : i0 = n + 1 := by omega
          rw [this] at h3
          rw [importOkB_true_iff.mp h3] at himp
          simp at himp

/-- When no candidate in range imports and the single-part candidate is
non-empty, the descending search falls through to the final
`ModuleNotFoundError`. -/
theorem resolveAux_notFound {w : World} {parts : List Str} :
    ∀ {n : Nat}, n ≤ parts.length →
      parts.head? ≠ some [] →
      (∀ j, j ≤ n → 1 ≤ j → importOkB w (joinD (parts.take j)) = false) →
      resolveAux w parts n = .error .moduleNotFound := by
  intro n
  induction n with
  | zero => intro _ _ _; rfl
  | succ n ih =>
    intro hn hhead hall
    cases himp : importResult w (joinD (parts.take (n + 1))) with
    | ok u =>
      have := hall (n + 1) (le_refl _) (by omega)
      rw [importOkB_true_iff.mpr himp] at this
      simp at this
    | error e =>
      cases e with
      | moduleNotFound =>
        simp only [resolveAux, himp]
        exact ih (by omega) hhead (fun j hj1 hj2 => hall j (by omega) hj2)
      | valueError =>
        have hnil := importResult_valueError_eq himp
        rcases joinD_eq_nil hnil with hcase | hcase
        · have := List.take_eq_nil_iff.mp hcase
          rcases this with h5 | h5
          · omega
          · rw [h5] at hn; simp at hn
        · cases parts with
          | nil => simp at hn
          | cons q rest =>
            have : q = [] := by
              have h6 : (q :: rest).take (n + 1) = q :: rest.take n := rfl
              rw [h6] at hcase
              exact (List.cons_eq_cons.mp hcase).1
            rw [this] at hhead
            simp at hhead

/-- Resolution only reads the importable-modules component of the
world. -/
theorem resolveAux_congr {w w' : World} (h : w.importable = w'.importable)
    (parts : List Str) : ∀ n, resolveAux w parts n = resolveAux w' parts n := by
  have himp : ∀ name, importResult w name = importResult w' name := by
    intro name; unfold importResult; rw [h]
  intro n
  induction n with
  | zero => rfl
  | succ n ih =>
    simp only [resolveAux, himp]
    cases importResult w' (joinD (parts.take (n + 1))) with
    | ok u => rfl
    | error e => cases e <;> simp [ih]

/-- Resolution only reads the importable-modules component of the
world. -/
theorem resolve_congr {w w' : World} (h : w.importable = w'.importable)
    (p : Str) : resolve w p = resolve w' p := by
  unfold resolve
  exact resolveAux_congr h _ _

/-- Setting a non-empty chain updates the slot. -/
theorem setAttr_ne_nil {chain : List Str} (h : chain ≠ []) (w : World) (m : Str)
    (v : Value) :
    setAttr w m chain v = .ok { w with live := dinsert (m, chain) v w.live } := by
  cases chain with
  | nil => exact absurd rfl h
  | cons c rest => rfl

/-- Reading a non-empty chain reads the slot. -/
theorem getAttr_ne_nil {chain : List Str} (h : chain ≠ []) (w : World) (m : Str) :
    getAttr w m chain = dlookup (m, chain) w.live := by
  cases chain with
  | nil => exact absurd rfl h
  | cons c rest => rfl

/-- `hook` on a fresh key records the live value and marks the path. -/
theorem hook_fresh {w : World} {s : HM} {p m : Str} {chain : List Str} {v : Value}
    (hres : resolve w p = .ok (m, chain))
    (hno : dlookup (m, chain) s.originals = none)
    (hget : getAttr w m chain = some v) :
    hook w s p = ⟨{ originals := dinsert (m, chain) v s.originals,
                    hooked := setAdd p s.hooked }, w, none⟩ := by
  unfold hook
  rw [hres]
  simp [hno, hget]

/-- `hook` on an existing key raises AlreadyHooked and changes nothing. -/
theorem hook_already {w : World} {s : HM} {p m : Str} {chain : List Str}
    (hres : resolve w p = .ok (m, chain))
    (hyes : (dlookup (m, chain) s.originals).isSome = true) :
    hook w s p = ⟨s, w, some .alreadyHooked⟩ := by
  unfold hook
  rw [hres]
  simp [hyes]

/-- `patch_print` without a record raises NotHooked and changes
nothing. -/
theorem patch_print_not_hooked {w : World} {s : HM} {p m msg : Str} {chain : List Str}
    (hres : resolve w p = .ok (m, chain))
    (hno : dlookup (m, chain) s.originals = none) :
    patch_print w s p msg = ⟨s, w, some .notHooked⟩ := by
  unfold patch_print
  rw [hres]
  simp [hno]

/-- `patch_print` with a record and a real attribute chain installs the
wrapper closing over the stored original, leaving the store alone. -/
theorem patch_print_ok {w : World} {s : HM} {p m msg : Str} {chain : List Str}
    {orig : Value}
    (hres : resolve w p = .ok (m, chain))
    (hsome : dlookup (m, chain) s.originals = some orig)
    (hch : chain ≠ []) :
    patch_print w s p msg =
      ⟨s, { w with live := dinsert (m, chain) (.printWrap msg orig) w.live }, none⟩ := by
  unfold patch_print
  rw [hres]
  simp [hsome, setAttr_ne_nil hch]

/-- `patch_print` on a module-level key (empty chain) raises the untyped
IndexError from `_set_attr`, leaving everything unchanged. -/
theorem patch_print_module {w : World} {s : HM} {p m msg : Str} {orig : Value}
    (hres : resolve w p = .ok (m, []))
    (hsome : dlookup (m, []) s.originals = some orig) :
    patch_print w s p msg = ⟨s, w, some .indexError⟩ := by
  unfold patch_print
  rw [hres]
  simp [hsome, setAttr]

/-- `patch_function` without a record raises NotHooked and changes
nothing. -/
theorem patch_function_not_hooked {w : World} {s : HM} {p m : Str} {chain : List Str}
    {f : Value}
    (hres : resolve w p = .ok (m, chain))
    (hno : dlookup (m, chain) s.originals = none) :
    patch_function w s p f = ⟨s, w, some .notHooked⟩ := by
  unfold patch_function
  rw [hres]
  simp [hno]

/-- `patch_function` with a record and a real attribute chain installs
the rebound function and sets the process-wide flag. -/
theorem patch_function_ok {w : World} {s : HM} {p m : Str} {chain : List Str}
    {orig f : Value}
    (hres : resolve w p = .ok (m, chain))
    (hsome : dlookup (m, chain) s.originals = some orig)
    (hch : chain ≠ []) :
    patch_function w s p f =
      ⟨s, ⟨w.importable, dinsert (m, chain) (.rebound f) w.live, true⟩, none⟩ := by
  unfold patch_function
  rw [hres]
  simp [hsome, setAttr_ne_nil hch]

/-- `patch_function` on a module-level key raises the untyped IndexError
before the flag assignment, leaving everything unchanged. -/
theorem patch_function_module {w : World} {s : HM} {p m : Str} {orig f : Value}
    (hres : resolve w p = .ok (m, []))
    (hsome : dlookup (m, []) s.originals = some orig) :
    patch_function w s p f = ⟨s, w, some .indexError⟩ := by
  unfold patch_function
  rw [hres]
  simp [hsome, setAttr]

/-- `restore` without a record raises NotHooked and changes nothing. -/
theorem restore_not_hooked {w : World} {s : HM} {p m : Str} {chain : List Str}
    (hres : resolve w p = .ok (m, chain))
    (hno : dlookup (m, chain) s.originals = none) :
    restore w s p = ⟨s, w, some .notHooked⟩ := by
  unfold restore
  rw [hres]
  simp [hno]

/-- `restore` with a record and a real attribute chain writes the stored
original back, pops the record, and clears the marker. -/
theorem restore_ok {w : World} {s : HM} {p m : Str} {chain : List Str} {v : Value}
    (hres : resolve w p = .ok (m, chain))
    (hsome : dlookup (m, chain) s.originals = some v)
    (hch : chain ≠ []) :
    restore w s p =
      ⟨{ originals := dremove (m, chain) s.originals,
         hooked := setDiscard p s.hooked },
       { w with live := dinsert (m, chain) v w.live }, none⟩ := by
  unfold restore
  rw [hres]
  simp [hsome, setAttr_ne_nil hch]

/-- `restore` on a module-level key pops the record, then `_set_attr`
raises IndexError before the marker is discarded. -/
theorem restore_module {w : World} {s : HM} {p m : Str} {v : Value}
    (hres : resolve w p = .ok (m, []))
    (hsome : dlookup (m, []) s.originals = some v) :
    restore w s p =
      ⟨{ s with originals := dremove (m, []) s.originals }, w, some .indexError⟩ := by
  unfold restore
  rw [hres]
  simp [hsome, setAttr]

/-- `unhook_target` without a record raises NotHooked and changes
nothing. -/
theorem unhook_target_not_hooked {w : World} {s : HM} {p m : Str} {chain : List Str}
    (hres : resolve w p = .ok (m, chain))
    (hno : dlookup (m, chain) s.originals = none) :
    unhook_target w s p = ⟨s, w, some .notHooked⟩ := by
  unfold unhook_target
  rw [hres]
  simp [hno]

/-- `unhook_target` with a record drops record and marker without
touching the world. -/
theorem unhook_target_ok {w : World} {s : HM} {p m : Str} {chain : List Str} {v : Value}
    (hres : resolve w p = .ok (m, chain))
    (hsome : dlookup (m, chain) s.originals = some v) :
    unhook_target w s p =
      ⟨{ originals := dremove (m, chain) s.originals,
         hooked := setDiscard p s.hooked }, w, none⟩ := by
  unfold unhook_target
  rw [hres]
  simp [hsome]

/-- A resolution failure propagates out of `hook` unchanged. -/
theorem hook_resolve_err {w : World} {s : HM} {p : Str} {e : RErr}
    (he : resolve w p = .error e) : hook w s p = ⟨s, w, some (.resolveFail e)⟩ := by
  unfold hook
  rw [he]

/-- `hook` propagates a missing-attribute failure unchanged. -/
theorem hook_attr_err {w : World} {s : HM} {p m : Str} {chain : List Str}
    (hres : resolve w p = .ok (m, chain))
    (hno : dlookup (m, chain) s.originals = none)
    (hget : getAttr w m chain = none) :
    hook w s p = ⟨s, w, some .attributeError⟩ := by
  unfold hook
  rw [hres]
  simp [hno, hget]

/-- A resolution failure propagates out of `patch_print` unchanged. -/
theorem patch_print_resolve_err {w : World} {s : HM} {p msg : Str} {e : RErr}
    (he : resolve w p = .error e) :
    patch_print w s p msg = ⟨s, w, some (.resolveFail e)⟩ := by
  unfold patch_print
  rw [he]

/-- A resolution failure propagates out of `patch_function` unchanged. -/
theorem patch_function_resolve_err {w : World} {s : HM} {p : Str} {f : Value} {e : RErr}
    (he : resolve w p = .error e) :
    patch_function w s p f = ⟨s, w, some (.resolveFail e)⟩ := by
  unfold patch_function
  rw [he]

/-- A resolution failure propagates out of `restore` unchanged. -/
theorem restore_resolve_err {w : World} {s : HM} {p : Str} {e : RErr}
    (he : resolve w p = .error e) : restore w s p = ⟨s, w, some (.resolveFail e)⟩ := by
  unfold restore
  rw [he]

/-- A resolution failure propagates out of `unhook_target` unchanged. -/
theorem unhook_target_resolve_err {w : World} {s : HM} {p : Str} {e : RErr}
    (he : resolve w p = .error e) :
    unhook_target w s p = ⟨s, w, some (.resolveFail e)⟩ := by
  unfold unhook_target
  rw [he]

/-- `patch_print` never touches the manager state. -/
theorem patch_print_hm (w : World) (s : HM) (p msg : Str) :
    (patch_print w s p msg).hm = s := by
  cases hres : resolve w p with
  | error e => rw [patch_print_resolve_err hres]
  | ok k =>
    obtain ⟨m, chain⟩ := k
    cases hlook : dlookup (m, chain) s.originals with
    | none => rw [patch_print_not_hooked hres hlook]
    | some orig =>
      cases chain with
      | nil => rw [patch_print_module hres hlook]
      | cons c rest => rw [patch_print_ok hres hlook (by simp)]

/-- `patch_function` never touches the manager state. -/
theorem patch_function_hm (w : World) (s : HM) (p : Str) (f : Value) :
    (patch_function w s p f).hm = s := by
  cases hres : resolve w p with
  | error e => rw [patch_function_resolve_err hres]
  | ok k =>
    obtain ⟨m, chain⟩ := k
    cases hlook : dlookup (m, chain) s.originals with
    | none => rw [patch_function_not_hooked hres hlook]
    | some orig =>
      cases chain with
      | nil => rw [patch_function_module hres hlook]
      | cons c rest => rw [patch_function_ok hres hlook (by simp)]

/-- `patch_print` never touches the importable modules. -/
theorem patch_print_importable (w : World) (s : HM) (p msg : Str) :
    (patch_print w s p msg).world.importable = w.importable := by
  cases hres : resolve w p with
  | error e => rw [patch_print_resolve_err hres]
  | ok k =>
    obtain ⟨m, chain⟩ := k
    cases hlook : dlookup (m, chain) s.originals with
    | none => rw [patch_print_not_hooked hres hlook]
    | some orig =>
      cases chain with
      | nil => rw [patch_print_module hres hlook]
      | cons c rest => rw [patch_print_ok hres hlook (by simp)]

/-- `patch_function` never touches the importable modules. -/
theorem patch_function_importable (w : World) (s : HM) (p : Str) (f : Value) :
    (patch_function w s p f).world.importable = w.importable := by
  cases hres : resolve w p with
  | error e => rw [patch_function_resolve_err hres]
  | ok k =>
    obtain ⟨m, chain⟩ := k
    cases hlook : dlookup (m, chain) s.originals with
    | none => rw [patch_function_not_hooked hres hlook]
    | some orig =>
      cases chain with
      | nil => rw [patch_function_module hres hlook]
      | cons c rest => rw [patch_function_ok hres hlook (by simp)]

/-- One patch call never touches the manager state. -/
theorem patchStep_hm (w : World) (s : HM) (p : Str) (c : PatchCall) :
    (patchStep w s p c).hm = s := by
  cases c with
  | pr msg => exact patch_print_hm w s p msg
  | fn f => exact patch_function_hm w s p f

/-- One patch call never touches the importable modules. -/
theorem patchStep_importable (w : World) (s : HM) (p : Str) (c : PatchCall) :
    (patchStep w s p c).world.importable = w.importable := by
  cases c with
  | pr msg => exact patch_print_importable w s p msg
  | fn f => exact patch_function_importable w s p f

/-- A sequence of patch calls never touches the manager state. -/
theorem runPatches_hm {pcs : List PatchCall} :
    ∀ {w : World} {s : HM} {p : Str}, (runPatches w s p pcs).1 = s := by
  induction pcs with
  | nil => intro w s p; rfl
  | cons c cs ih =>
    intro w s p
    simp only [runPatches]
    rw [ih, patchStep_hm]

/-- A sequence of patch calls never touches the importable modules. -/
theorem runPatches_importable {pcs : List PatchCall} :
    ∀ {w : World} {s : HM} {p : Str},
      (runPatches w s p pcs).2.importable = w.importable := by
  induction pcs with
  | nil => intro w s p; rfl
  | cons c cs ih =>
    intro w s p
    simp only [runPatches]
    rw [ih, patchStep_importable]

/-- `hook` never touches the world. -/
theorem hook_world (w : World) (s : HM) (p : Str) : (hook w s p).world = w := by
  cases hres : resolve w p with
  | error e => rw [hook_resolve_err hres]
  | ok k =>
    obtain ⟨m, chain⟩ := k
    cases hlook : dlookup (m, chain) s.originals with
    | some v =>
      have hy : (dlookup (m, chain) s.originals).isSome = true := by rw [hlook]; rfl
      rw [hook_already hres hy]
    | none =>
      cases hget : getAttr w m chain with
      | none => rw [hook_attr_err hres hlook hget]
      | some v => rw [hook_fresh hres hlook hget]

/-- `restore` never touches the importable modules. -/
theorem restore_importable (w : World) (s : HM) (p : Str) :
    (restore w s p).world.importable = w.importable := by
  cases hres : resolve w p with
  | error e => rw [restore_resolve_err hres]
  | ok k =>
    obtain ⟨m, chain⟩ := k
    cases hlook : dlookup (m, chain) s.originals with
    | none => rw [restore_not_hooked hres hlook]
    | some v =>
      cases chain with
      | nil => rw [restore_module hres hlook]
      | cons c rest => rw [restore_ok hres hlook (by simp)]

/-- `unhook_target` never touches the world. -/
theorem unhook_target_world (w : World) (s : HM) (p : Str) :
    (unhook_target w s p).world = w := by
  cases hres : resolve w p with
  | error e => rw [unhook_target_resolve_err hres]
  | ok k =>
    obtain ⟨m, chain⟩ := k
    cases hlook : dlookup (m, chain) s.originals with
    | none => rw [unhook_target_not_hooked hres hlook]
    | some v => rw [unhook_target_ok hres hlook]

/-- No single operation touches the importable modules. -/
theorem step_importable (w : World) (s : HM) (op : Op) :
    (step w s op).world.importable = w.importable := by
  cases op with
  | hookOp p => rw [step, hook_world]
  | patchPrintOp p msg => exact patch_print_importable w s p msg
  | patchFnOp p f => exact patch_function_importable w s p f
  | restoreOp p => exact restore_importable w s p
  | detachOp p => show (unhook_target w s p).world.importable = w.importable
                  rw [unhook_target_world]

/-- No sequence of operations touches the importable modules. -/
theorem runOps_importable {ops : List Op} :
    ∀ {w : World} {s : HM}, (runOps w s ops).2.1.importable = w.importable := by
  induction ops with
  | nil => intro w s; rfl
  | cons op rest ih =>
    intro w s
    simp only [runOps]
    rw [ih, step_importable]

/-- True when a sequence of operations contains no `restore` and no
`unhook_target` call. -/
def noUnhookOps (ops : List Op) : Bool :=
  ops.all fun op =>
    match op with
    | .restoreOp _ => false
    | .detachOp _ => false
    | _ => true

/-- A hook operation can only add records, never drop one. -/
theorem hook_keeps_key {w : World} {s : HM} {p : Str} {k : Key}
    (hs : (dlookup k s.originals).isSome = true) :
    (dlookup k (hook w s p).hm.originals).isSome = true := by
  cases hres : resolve w p with
  | error e => rw [hook_resolve_err hres]; exact hs
  | ok k2 =>
    obtain ⟨m, chain⟩ := k2
    cases hlook : dlookup (m, chain) s.originals with
    | some v =>
      have hy : (dlookup (m, chain) s.originals).isSome = true := by rw [hlook]; rfl
      rw [hook_already hres hy]; exact hs
    | none =>
      cases hget : getAttr w m chain with
      | none => rw [hook_attr_err hres hlook hget]; exact hs
      | some v =>
        simp only [hook_fresh hres hlook hget]
        by_cases hkk : k = (m, chain)
        · subst hkk; rw [dlookup_dinsert_self]; rfl
        · rw [dlookup_dinsert_ne hkk]; exact hs

/-- A record survives any sequence of operations that never restores or
detaches. -/
theorem runOps_keeps_key {ops : List Op} :
    ∀ {w : World} {s : HM} {k : Key}, noUnhookOps ops = true →
      (dlookup k s.originals).isSome = true →
      (dlookup k (runOps w s ops).1.originals).isSome = true := by
  induction ops with
  | nil => intro w s k _ hs; exact hs
  | cons op rest ih =>
    intro w s k hno hs
    have hno2 : noUnhookOps rest = true := by
      simp only [noUnhookOps, List.all_cons, Bool.and_eq_true] at hno
      exact hno.2
    simp only [runOps]
    apply ih hno2
    cases op with
    | hookOp p => exact hook_keeps_key hs
    | patchPrintOp p msg => rw [step, patch_print_hm]; exact hs
    | patchFnOp p f => rw [step, patch_function_hm]; exact hs
    | restoreOp p =>
      simp only [noUnhookOps, List.all_cons, Bool.and_eq_true] at hno
      exact absurd hno.1 (by simp)
    | detachOp p =>
      simp only [noUnhookOps, List.all_cons, Bool.and_eq_true] at hno
      exact absurd hno.1 (by simp)

/-- The scenario of testable property 2/6: hook a path, run any patch
calls on it, then restore it. -/
def hookPatchRestore (w : World) (s : HM) (p : Str) (pcs : List PatchCall) : Res :=
  restore (runPatches (hook w s p).world (hook w s p).hm p pcs).2
    (runPatches (hook w s p).world (hook w s p).hm p pcs).1 p


/-- The object-identity-aware model of the ambient process: CPython's
`importlib.import_module` returns module OBJECTS, and two distinct
importable dotted names can denote the same object (`os.path` and
`posixpath` are one module).  `aliasOf` sends an importable name to the
canonical name of the object it denotes (absent entries denote
themselves); `alive` keys attribute slots by (canonical object,
attribute chain), so writes through one name are seen through every
alias, exactly as `setattr` on the shared object behaves. -/
structure AWorld where
  importable : List Str
  aliasOf : List (Str × Str)
  alive : List (Key × Value)
  wrapperInitEnd : Bool
deriving DecidableEq, Repr

/-- The name-resolution view of an aliased world: `_resolve_target`
probes import names only. -/
def nameWorld (w : AWorld) : World :=
  ⟨w.importable, [], false⟩

/-- Lookup in the alias map. -/
def slookup (m : Str) : List (Str × Str) → Option Str
  | [] => none
  | e :: rest => if e.1 = m then some e.2 else slookup m rest

/-- The canonical object denoted by an importable name. -/
def canon (w : AWorld) (m : Str) : Str :=
  match slookup m w.aliasOf with
  | some o => o
  | none => m

/-- `_resolve_target` under module-object identity: the name search is
unchanged, but the returned module is the OBJECT the winning prefix
denotes, so the store key uses its canonical name. -/
def aresolve (w : AWorld) (p : Str) : Except RErr Key :=
  match resolve (nameWorld w) p with
  | .ok (m, chain) => .ok (canon w m, chain)
  | .error e => .error e

/-- `_get_attr` on the object-keyed world. -/
def agetAttr (w : AWorld) (m : Str) (chain : List Str) : Option Value :=
  match chain with
  | [] => some (.vmod m)
  | _ :: _ => dlookup (m, chain) w.alive

/-- `_set_attr` on the object-keyed world: IndexError on an empty
chain, otherwise the shared object's slot is assigned. -/
def asetAttr (w : AWorld) (m : Str) (chain : List Str) (v : Value) : Except HErr AWorld :=
  match chain with
  | [] => .error .indexError
  | _ :: _ => .ok { w with alive := dinsert (m, chain) v w.alive }

/-- Outcome of a HookManager method call in the object-keyed model. -/
structure ARes where
  hm : HM
  world : AWorld
  err : Option HErr
deriving DecidableEq, Repr

/-- `HookManager.hook` with module-object keys. -/
def ahook (w : AWorld) (s : HM) (p : Str) : ARes :=
  match aresolve w p with
  | .error e => ⟨s, w, some (.resolveFail e)⟩
  | .ok (m, chain) =>
    if (dlookup (m, chain) s.originals).isSome then ⟨s, w, some .alreadyHooked⟩
    else
      match agetAttr w m chain with
      | none => ⟨s, w, some .attributeError⟩
      | some v =>
        ⟨{ originals := dinsert (m, chain) v s.originals,
           hooked := setAdd p s.hooked }, w, none⟩

/-- `HookManager.patch_print` with module-object keys. -/
def apatch_print (w : AWorld) (s : HM) (p : Str) (msg : Str) : ARes :=
  match aresolve w p with
  | .error e => ⟨s, w, some (.resolveFail e)⟩
  | .ok (m, chain) =>
    match dlookup (m, chain) s.originals with
    | none => ⟨s, w, some .notHooked⟩
    | some original =>
      match asetAttr w m chain (.printWrap msg original) with
      | .error e => ⟨s, w, some e⟩
      | .ok w2 => ⟨s, w2, none⟩

/-- `HookManager.patch_function` with module-object keys. -/
def apatch_function (w : AWorld) (s : HM) (p : Str) (f : Value) : ARes :=
  match aresolve w p with
  | .error e => ⟨s, w, some (.resolveFail e)⟩
  | .ok (m, chain) =>
    match dlookup (m, chain) s.originals with
    | none => ⟨s, w, some .notHooked⟩
    | some _ =>
      match asetAttr w m chain (.rebound f) with
      | .error e => ⟨s, w, some e⟩
      | .ok w2 => ⟨s, { w2 with wrapperInitEnd := true }, none⟩

/-- `HookManager.restore` with module-object keys: the pop still
precedes `_set_attr`, and `hooked.discard` still removes only the exact
path string passed in, even when the record was created under an
aliased path. -/
def arestore (w : AWorld) (s : HM) (p : Str) : ARes :=
  match aresolve w p with
  | .error e => ⟨s, w, some (.resolveFail e)⟩
  | .ok (m, chain) =>
    match dlookup (m, chain) s.originals with
    | none => ⟨s, w, some .notHooked⟩
    | some v =>
      let s2 : HM := { s with originals := dremove (m, chain) s.originals }
      match asetAttr w m chain v with
      | .error e => ⟨s2, w, some e⟩
      | .ok w2 => ⟨{ s2 with hooked := setDiscard p s2.hooked }, w2, none⟩

/-- `HookManager.unhook_target` with module-object keys. -/
def aunhook_target (w : AWorld) (s : HM) (p : Str) : ARes :=
  match aresolve w p with
  | .error e => ⟨s, w, some (.resolveFail e)⟩
  | .ok (m, chain) =>
    match dlookup (m, chain) s.originals with
    | none => ⟨s, w, some .notHooked⟩
    | some _ =>
      ⟨{ originals := dremove (m, chain) s.originals,
         hooked := setDiscard p s.hooked }, w, none⟩

/-- One HookManager method invocation in the object-keyed model. -/
inductive AOp where
  | hookOp : Str → AOp
  | patchPrintOp : Str → Str → AOp
  | patchFnOp : Str → Value → AOp
  | restoreOp : Str → AOp
  | detachOp : Str → AOp
deriving DecidableEq, Repr

/-- Dispatch one operation in the object-keyed model. -/
def astep (w : AWorld) (s : HM) : AOp → ARes
  | .hookOp p => ahook w s p
  | .patchPrintOp p msg => apatch_print w s p msg
  | .patchFnOp p f => apatch_function w s p f
  | .restoreOp p => arestore w s p
  | .detachOp p => aunhook_target w s p

/-- A foreign pop: a restore or detach about to remove a record through
a path that is not itself in the hooked set (only possible when a
different path created the record for the same module object). -/
def aopBad (w : AWorld) (s : HM) : AOp → Bool
  | .restoreOp p =>
    (match aresolve w p with
     | .ok k => (dlookup k s.originals).isSome && decide (p ∉ s.hooked)
     | .error _ => false)
  | .detachOp p =>
    (match aresolve w p with
     | .ok k => (dlookup k s.originals).isSome && decide (p ∉ s.hooked)
     | .error _ => false)
  | _ => false

/-- Run a sequence of operations in the object-keyed model, recording
whether any of them raised IndexError or performed a foreign pop. -/
def arunOps (w : AWorld) (s : HM) : List AOp → HM × AWorld × Bool
  | [] => (s, w, false)
  | op :: ops =>
    let b := aopBad w s op
    let r := astep w s op
    let rest := arunOps r.world r.hm ops
    (rest.1, rest.2.1, b || (r.err = some .indexError) || rest.2.2)

/-- The HookedSet/HookRecord consistency invariant under module-object
identity. -/
def ainvB (w : AWorld) (s : HM) : Bool :=
  s.hooked.all fun p =>
    match aresolve w p with
    | .ok k => (dlookup k s.originals).isSome
    | .error _ => false

/-- The key a path resolves to, when it resolves. -/
def akeyOf (w : AWorld) (p : Str) : Option Key :=
  match aresolve w p with
  | .ok k => some k
  | .error _ => none

/-- Distinct paths in the list resolve to distinct keys (aliasing-free
markers); states reachable from an empty manager satisfy this because
`hook` only marks a path whose key is fresh. -/
def apairB (w : AWorld) : List Str → Bool
  | [] => true
  | p :: rest =>
    rest.all (fun q => decide (p = q) || decide (akeyOf w p ≠ akeyOf w q)) &&
      apairB w rest

/-- Setting a non-empty chain on the object-keyed world updates the
shared slot. -/
theorem asetAttr_ne_nil {chain : List Str} (h : chain ≠ []) (w : AWorld) (m : Str)
    (v : Value) :
    asetAttr w m chain v = .ok { w with alive := dinsert (m, chain) v w.alive } := by
  cases chain with
  | nil => exact absurd rfl h
  | cons c rest => rfl

/-- Changing only the live slots or the flag leaves object-keyed
resolution unchanged. -/
theorem aresolve_update_alive (w : AWorld) (l : List (Key × Value)) (b : Bool)
    (p : Str) : aresolve ⟨w.importable, w.aliasOf, l, b⟩ p = aresolve w p :=
  rfl

/-- Changing only the live slots or the flag leaves the resolved key of
a path unchanged. -/
theorem akeyOf_update_alive (w : AWorld) (l : List (Key × Value)) (b : Bool)
    (p : Str) : akeyOf ⟨w.importable, w.aliasOf, l, b⟩ p = akeyOf w p :=
  rfl

/-- Changing only the live slots or the flag leaves the invariant
unchanged. -/
theorem ainvB_update_alive (w : AWorld) (s : HM) (l : List (Key × Value)) (b : Bool) :
    ainvB ⟨w.importable, w.aliasOf, l, b⟩ s = ainvB w s :=
  rfl

/-- Changing only the live slots or the flag leaves key-distinctness
unchanged. -/
theorem apairB_update_alive (w : AWorld) (l : List (Key × Value)) (b : Bool) :
    ∀ ps : List Str, apairB ⟨w.importable, w.aliasOf, l, b⟩ ps = apairB w ps := by
  intro ps
  induction ps with
  | nil => rfl
  | cons p rest ih =>
    simp only [apairB, akeyOf_update_alive, ih]

/-- A resolution failure propagates out of `ahook` unchanged. -/
theorem ahook_resolve_err {w : AWorld} {s : HM} {p : Str} {e : RErr}
    (he : aresolve w p = .error e) : ahook w s p = ⟨s, w, some (.resolveFail e)⟩ := by
  unfold ahook
  rw [he]

/-- `ahook` on an existing key raises AlreadyHooked and changes
nothing. -/
theorem ahook_already {w : AWorld} {s : HM} {p m : Str} {chain : List Str}
    (hres : aresolve w p = .ok (m, chain))
    (hyes : (dlookup (m, chain) s.originals).isSome = true) :
    ahook w s p = ⟨s, w, some .alreadyHooked⟩ := by
  unfold ahook
  rw [hres]
  simp [hyes]

/-- `ahook` propagates a missing-attribute failure unchanged. -/
theorem ahook_attr_err {w : AWorld} {s : HM} {p m : Str} {chain : List Str}
    (hres : aresolve w p = .ok (m, chain))
    (hno : dlookup (m, chain) s.originals = none)
    (hget : agetAttr w m chain = none) :
    ahook w s p = ⟨s, w, some .attributeError⟩ := by
  unfold ahook
  rw [hres]
  simp [hno, hget]

/-- `ahook` on a fresh key records the shared object's live value and
marks the path. -/
theorem ahook_fresh {w : AWorld} {s : HM} {p m : Str} {chain : List Str} {v : Value}
    (hres : aresolve w p = .ok (m, chain))
    (hno : dlookup (m, chain) s.originals = none)
    (hget : agetAttr w m chain = some v) :
    ahook w s p = ⟨{ originals := dinsert (m, chain) v s.originals,
                     hooked := setAdd p s.hooked }, w, none⟩ := by
  unfold ahook
  rw [hres]
  simp [hno, hget]

/-- A resolution failure propagates out of `apatch_print` unchanged. -/
theorem apatch_print_resolve_err {w : AWorld} {s : HM} {p msg : Str} {e : RErr}
    (he : aresolve w p = .error e) :
    apatch_print w s p msg = ⟨s, w, some (.resolveFail e)⟩ := by
  unfold apatch_print
  rw [he]

/-- `apatch_print` without a record raises NotHooked and changes
nothing. -/
theorem apatch_print_not_hooked {w : AWorld} {s : HM} {p m msg : Str} {chain : List Str}
    (hres : aresolve w p = .ok (m, chain))
    (hno : dlookup (m, chain) s.originals = none) :
    apatch_print w s p msg = ⟨s, w, some .notHooked⟩ := by
  unfold apatch_print
  rw [hres]
  simp [hno]

/-- `apatch_print` with a record and a real chain installs the wrapper
on the shared object. -/
theorem apatch_print_ok {w : AWorld} {s : HM} {p m msg : Str} {chain : List Str}
    {orig : Value}
    (hres : aresolve w p = .ok (m, chain))
    (hsome : dlookup (m, chain) s.originals = some orig)
    (hch : chain ≠ []) :
    apatch_print w s p msg =
      ⟨s, { w with alive := dinsert (m, chain) (.printWrap msg orig) w.alive },
       none⟩ := by
  unfold apatch_print
  rw [hres]
  simp [hsome, asetAttr_ne_nil hch]

/-- `apatch_print` on a module-level key raises the untyped IndexError,
changing nothing. -/
theorem apatch_print_module {w : AWorld} {s : HM} {p m msg : Str} {orig : Value}
    (hres : aresolve w p = .ok (m, []))
    (hsome : dlookup (m, []) s.originals = some orig) :
    apatch_print w s p msg = ⟨s, w, some .indexError⟩ := by
  unfold apatch_print
  rw [hres]
  simp [hsome, asetAttr]

/-- A resolution failure propagates out of `apatch_function`
unchanged. -/
theorem apatch_function_resolve_err {w : AWorld} {s : HM} {p : Str} {f : Value}
    {e : RErr} (he : aresolve w p = .error e) :
    apatch_function w s p f = ⟨s, w, some (.resolveFail e)⟩ := by
  unfold apatch_function
  rw [he]

/-- `apatch_function` without a record raises NotHooked and changes
nothing. -/
theorem apatch_function_not_hooked {w : AWorld} {s : HM} {p m : Str} {chain : List Str}
    {f : Value}
    (hres : aresolve w p = .ok (m, chain))
    (hno : dlookup (m, chain) s.originals = none) :
    apatch_function w s p f = ⟨s, w, some .notHooked⟩ := by
  unfold apatch_function
  rw [hres]
  simp [hno]

/-- `apatch_function` with a record and a real chain installs the
rebound function and sets the flag. -/
theorem apatch_function_ok {w : AWorld} {s : HM} {p m : Str} {chain : List Str}
    {orig f : Value}
    (hres : aresolve w p = .ok (m, chain))
    (hsome : dlookup (m, chain) s.originals = some orig)
    (hch : chain ≠ []) :
    apatch_function w s p f =
      ⟨s, ⟨w.importable, w.aliasOf, dinsert (m, chain) (.rebound f) w.alive, true⟩,
       none⟩ := by
  unfold apatch_function
  rw [hres]
  simp [hsome, asetAttr_ne_nil hch]

/-- `apatch_function` on a module-level key raises the untyped
IndexError before the flag assignment, changing nothing. -/
theorem apatch_function_module {w : AWorld} {s : HM} {p m : Str} {orig f : Value}
    (hres : aresolve w p = .ok (m, []))
    (hsome : dlookup (m, []) s.originals = some orig) :
    apatch_function w s p f = ⟨s, w, some .indexError⟩ := by
  unfold apatch_function
  rw [hres]
  simp [hsome, asetAttr]

/-- A resolution failure propagates out of `arestore` unchanged. -/
theorem arestore_resolve_err {w : AWorld} {s : HM} {p : Str} {e : RErr}
    (he : aresolve w p = .error e) :
    arestore w s p = ⟨s, w, some (.resolveFail e)⟩ := by
  unfold arestore
  rw [he]

/-- `arestore` without a record raises NotHooked and changes nothing. -/
theorem arestore_not_hooked {w : AWorld} {s : HM} {p m : Str} {chain : List Str}
    (hres : aresolve w p = .ok (m, chain))
    (hno : dlookup (m, chain) s.originals = none) :
    arestore w s p = ⟨s, w, some .notHooked⟩ := by
  unfold arestore
  rw [hres]
  simp [hno]

/-- `arestore` with a record and a real chain writes the original back
to the shared object, pops the record, and discards exactly the passed
path string. -/
theorem arestore_ok {w : AWorld} {s : HM} {p m : Str} {chain : List Str} {v : Value}
    (hres : aresolve w p = .ok (m, chain))
    (hsome : dlookup (m, chain) s.originals = some v)
    (hch : chain ≠ []) :
    arestore w s p =
      ⟨{ originals := dremove (m, chain) s.originals,
         hooked := setDiscard p s.hooked },
       { w with alive := dinsert (m, chain) v w.alive }, none⟩ := by
  unfold arestore
  rw [hres]
  simp [hsome, asetAttr_ne_nil hch]

/-- `arestore` on a module-level key pops the record, then raises
IndexError before the marker is discarded. -/
theorem arestore_module {w : AWorld} {s : HM} {p m : Str} {v : Value}
    (hres : aresolve w p = .ok (m, []))
    (hsome : dlookup (m, []) s.originals = some v) :
    arestore w s p =
      ⟨{ s with originals := dremove (m, []) s.originals }, w, some .indexError⟩ := by
  unfold arestore
  rw [hres]
  simp [hsome, asetAttr]

/-- A resolution failure propagates out of `aunhook_target`
unchanged. -/
theorem aunhook_target_resolve_err {w : AWorld} {s : HM} {p : Str} {e : RErr}
    (he : aresolve w p = .error e) :
    aunhook_target w s p = ⟨s, w, some (.resolveFail e)⟩ := by
  unfold aunhook_target
  rw [he]

/-- `aunhook_target` without a record raises NotHooked and changes
nothing. -/
theorem aunhook_target_not_hooked {w : AWorld} {s : HM} {p m : Str} {chain : List Str}
    (hres : aresolve w p = .ok (m, chain))
    (hno : dlookup (m, chain) s.originals = none) :
    aunhook_target w s p = ⟨s, w, some .notHooked⟩ := by
  unfold aunhook_target
  rw [hres]
  simp [hno]

/-- `aunhook_target` with a record drops the record and the passed path
string without touching the world. -/
theorem aunhook_target_ok {w : AWorld} {s : HM} {p m : Str} {chain : List Str}
    {v : Value}
    (hres : aresolve w p = .ok (m, chain))
    (hsome : dlookup (m, chain) s.originals = some v) :
    aunhook_target w s p =
      ⟨{ originals := dremove (m, chain) s.originals,
         hooked := setDiscard p s.hooked }, w, none⟩ := by
  unfold aunhook_target
  rw [hres]
  simp [hsome]

/-- Pointwise reading of the object-keyed consistency invariant. -/
theorem ainvB_iff {w : AWorld} {s : HM} :
    ainvB w s = true ↔
      ∀ p ∈ s.hooked, ∃ k, aresolve w p = .ok k ∧
        (dlookup k s.originals).isSome = true := by
  unfold ainvB
  rw [List.all_eq_true]
  constructor
  · intro h p hp
    have h2 := h p hp
    cases hr : aresolve w p with
    | ok k =>
      rw [hr] at h2
      exact ⟨k, rfl, h2⟩
    | error e =>
      rw [hr] at h2
      simp at h2
  · intro h p hp
    obtain ⟨k, hk, hs⟩ := h p hp
    rw [hk]
    exact hs

/-- Key-distinctness gives distinct keys for any two distinct members of
the list. -/
theorem apairB_get {w : AWorld} :
    ∀ {l : List Str} {p q : Str}, apairB w l = true → p ∈ l → q ∈ l → p ≠ q →
      akeyOf w p ≠ akeyOf w q := by
  intro l
  induction l with
  | nil =>
    intro p q _ hp
    simp at hp
  | cons x rest ih =>
    intro p q hpair hp hq hne
    simp only [apairB, Bool.and_eq_true, List.all_eq_true, Bool.or_eq_true,
      decide_eq_true_eq] at hpair
    obtain ⟨hall, hrest⟩ := hpair
    rcases List.mem_cons.mp hp with rfl | hp2
    · rcases List.mem_cons.mp hq with rfl | hq2
      · exact absurd rfl hne
      · rcases hall q hq2 with h3 | h3
        · exact absurd h3 hne
        · exact h3
    · rcases List.mem_cons.mp hq with rfl | hq2
      · rcases hall p hp2 with h3 | h3
        · exact absurd h3.symm hne
        · exact h3.symm
      · exact ih hrest hp2 hq2 hne

/-- Key-distinctness survives filtering the list. -/
theorem apairB_filter {w : AWorld} (f : Str → Bool) :
    ∀ {l : List Str}, apairB w l = true → apairB w (l.filter f) = true := by
  intro l
  induction l with
  | nil => intro h; exact h
  | cons x rest ih =>
    intro hpair
    simp only [apairB, Bool.and_eq_true, List.all_eq_true] at hpair
    obtain ⟨hall, hrest⟩ := hpair
    by_cases hf : f x = true
    · rw [List.filter_cons_of_pos hf]
      simp only [apairB, Bool.and_eq_true, List.all_eq_true]
      constructor
      · intro q hq
        exact hall q (List.mem_of_mem_filter hq)
      · exact ih hrest
    · rw [List.filter_cons_of_neg (by simpa using hf)]
      exact ih hrest

/-- A flagged-false restore or detach whose key has a record must be
acting through a path that is itself marked. -/
theorem aopBad_restore_mem {w : AWorld} {s : HM} {p m : Str} {chain : List Str}
    {v : Value}
    (hres : aresolve w p = .ok (m, chain))
    (hlook : dlookup (m, chain) s.originals = some v)
    (hbad : aopBad w s (.restoreOp p) = false) : p ∈ s.hooked := by
  simp only [aopBad, hres, hlook] at hbad
  simp at hbad
  exact hbad

/-- A flagged-false detach whose key has a record must be acting
through a path that is itself marked. -/
theorem aopBad_detach_mem {w : AWorld} {s : HM} {p m : Str} {chain : List Str}
    {v : Value}
    (hres : aresolve w p = .ok (m, chain))
    (hlook : dlookup (m, chain) s.originals = some v)
    (hbad : aopBad w s (.detachOp p) = false) : p ∈ s.hooked := by
  simp only [aopBad, hres, hlook] at hbad
  simp at hbad
  exact hbad

/-- `ahook` preserves the consistency invariant together with
key-distinctness of the markers. -/
theorem ahook_preserves {w : AWorld} {s : HM} {p : Str}
    (hinv : ainvB w s = true) (hpair : apairB w s.hooked = true) :
    ainvB (ahook w s p).world (ahook w s p).hm = true ∧
    apairB (ahook w s p).world (ahook w s p).hm.hooked = true := by
  cases hres : aresolve w p with
  | error e => simp only [ahook_resolve_err hres]; exact ⟨hinv, hpair⟩
  | ok k =>
    obtain ⟨m, chain⟩ := k
    cases hlook : dlookup (m, chain) s.originals with
    | some v =>
      have hy : (dlookup (m, chain) s.originals).isSome = true := by rw [hlook]; rfl
      simp only [ahook_already hres hy]; exact ⟨hinv, hpair⟩
    | none =>
      cases hget : agetAttr w m chain with
      | none => simp only [ahook_attr_err hres hlook hget]; exact ⟨hinv, hpair⟩
      | some v =>
        simp only [ahook_fresh hres hlook hget]
        constructor
        · rw [ainvB_iff]
          intro q hq
          rcases mem_setAdd_iff.mp hq with rfl | hq2
          · exact ⟨(m, chain), hres, by rw [dlookup_dinsert_self]; rfl⟩
          · obtain ⟨k', hk', hs'⟩ := ainvB_iff.mp hinv q hq2
            by_cases hkk : k' = (m, chain)
            · subst hkk
              exact ⟨(m, chain), hk', by rw [dlookup_dinsert_self]; rfl⟩
            · exact ⟨k', hk', by rw [dlookup_dinsert_ne hkk]; exact hs'⟩
        · unfold setAdd
          by_cases hmem : p ∈ s.hooked
          · rw [if_pos hmem]; exact hpair
          · rw [if_neg hmem]
            simp only [apairB, Bool.and_eq_true, List.all_eq_true, Bool.or_eq_true,
              decide_eq_true_eq]
            refine ⟨?_, hpair⟩
            intro q hq
            obtain ⟨k', hk', hs'⟩ := ainvB_iff.mp hinv q hq
            have hkk : k' ≠ (m, chain) := by
              intro hh
              rw [hh, hlook] at hs'
              simp at hs'
            right
            have h1 : akeyOf w p = some (m, chain) := by unfold akeyOf; rw [hres]
            have h2 : akeyOf w q = some k' := by unfold akeyOf; rw [hk']
            rw [h1, h2]
            intro hh
            exact hkk (by injection hh with hh2; exact hh2.symm)

/-- `apatch_print` preserves the invariant and key-distinctness. -/
theorem apatch_print_preserves {w : AWorld} {s : HM} {p msg : Str}
    (hinv : ainvB w s = true) (hpair : apairB w s.hooked = true) :
    ainvB (apatch_print w s p msg).world (apatch_print w s p msg).hm = true ∧
    apairB (apatch_print w s p msg).world (apatch_print w s p msg).hm.hooked =
      true := by
  cases hres : aresolve w p with
  | error e => simp only [apatch_print_resolve_err hres]; exact ⟨hinv, hpair⟩
  | ok k =>
    obtain ⟨m, chain⟩ := k
    cases hlook : dlookup (m, chain) s.originals with
    | none => simp only [apatch_print_not_hooked hres hlook]; exact ⟨hinv, hpair⟩
    | some orig =>
      cases chain with
      | nil => simp only [apatch_print_module hres hlook]; exact ⟨hinv, hpair⟩
      | cons c rest =>
        simp only [apatch_print_ok hres hlook (by simp)]
        constructor
        · rw [ainvB_update_alive]; exact hinv
        · rw [apairB_update_alive]; exact hpair

/-- `apatch_function` preserves the invariant and key-distinctness. -/
theorem apatch_function_preserves {w : AWorld} {s : HM} {p : Str} {f : Value}
    (hinv : ainvB w s = true) (hpair : apairB w s.hooked = true) :
    ainvB (apatch_function w s p f).world (apatch_function w s p f).hm = true ∧
    apairB (apatch_function w s p f).world (apatch_function w s p f).hm.hooked =
      true := by
  cases hres : aresolve w p with
  | error e => simp only [apatch_function_resolve_err hres]; exact ⟨hinv, hpair⟩
  | ok k =>
    obtain ⟨m, chain⟩ := k
    cases hlook : dlookup (m, chain) s.originals with
    | none => simp only [apatch_function_not_hooked hres hlook]; exact ⟨hinv, hpair⟩
    | some orig =>
      cases chain with
      | nil => simp only [apatch_function_module hres hlook]; exact ⟨hinv, hpair⟩
      | cons c rest =>
        simp only [apatch_function_ok hres hlook (by simp)]
        constructor
        · rw [ainvB_update_alive]; exact hinv
        · rw [apairB_update_alive]; exact hpair

/-- `arestore` preserves the invariant and key-distinctness when it
neither raises IndexError nor pops a record through a foreign path. -/
theorem arestore_preserves {w : AWorld} {s : HM} {p : Str}
    (hinv : ainvB w s = true) (hpair : apairB w s.hooked = true)
    (hbad : aopBad w s (.restoreOp p) = false)
    (hidx : (arestore w s p).err ≠ some .indexError) :
    ainvB (arestore w s p).world (arestore w s p).hm = true ∧
    apairB (arestore w s p).world (arestore w s p).hm.hooked = true := by
  cases hres : aresolve w p with
  | error e => simp only [arestore_resolve_err hres]; exact ⟨hinv, hpair⟩
  | ok k =>
    obtain ⟨m, chain⟩ := k
    cases hlook : dlookup (m, chain) s.originals with
    | none => simp only [arestore_not_hooked hres hlook]; exact ⟨hinv, hpair⟩
    | some v =>
      have hmem : p ∈ s.hooked := aopBad_restore_mem hres hlook hbad
      cases chain with
      | nil =>
        rw [arestore_module hres hlook] at hidx
        simp at hidx
      | cons c rest =>
        simp only [arestore_ok hres hlook (by simp)]
        constructor
        · rw [ainvB_iff]
          intro q hq
          obtain ⟨hq2, hqp⟩ := mem_setDiscard_iff.mp hq
          obtain ⟨k', hk', hs'⟩ := ainvB_iff.mp hinv q hq2
          have hkq : akeyOf w q = some k' := by unfold akeyOf; rw [hk']
          have hkp : akeyOf w p = some (m, c :: rest) := by unfold akeyOf; rw [hres]
          have hne := apairB_get hpair hq2 hmem hqp
          have hkk : k' ≠ (m, c :: rest) := by
            intro hh
            rw [hkq, hkp, hh] at hne
            exact hne rfl
          refine ⟨k', ?_, ?_⟩
          · rw [aresolve_update_alive]
            exact hk'
          · rw [dlookup_dremove_ne hkk]
            exact hs'
        · rw [apairB_update_alive]
          exact apairB_filter _ hpair

/-- `aunhook_target` preserves the invariant and key-distinctness when
it does not pop a record through a foreign path. -/
theorem aunhook_target_preserves {w : AWorld} {s : HM} {p : Str}
    (hinv : ainvB w s = true) (hpair : apairB w s.hooked = true)
    (hbad : aopBad w s (.detachOp p) = false) :
    ainvB (aunhook_target w s p).world (aunhook_target w s p).hm = true ∧
    apairB (aunhook_target w s p).world (aunhook_target w s p).hm.hooked = true := by
  cases hres : aresolve w p with
  | error e => simp only [aunhook_target_resolve_err hres]; exact ⟨hinv, hpair⟩
  | ok k =>
    obtain ⟨m, chain⟩ := k
    cases hlook : dlookup (m, chain) s.originals with
    | none => simp only [aunhook_target_not_hooked hres hlook]; exact ⟨hinv, hpair⟩
    | some v =>
      have hmem : p ∈ s.hooked := aopBad_detach_mem hres hlook hbad
      simp only [aunhook_target_ok hres hlook]
      constructor
      · rw [ainvB_iff]
        intro q hq
        obtain ⟨hq2, hqp⟩ := mem_setDiscard_iff.mp hq
        obtain ⟨k', hk', hs'⟩ := ainvB_iff.mp hinv q hq2
        have hkq : akeyOf w q = some k' := by unfold akeyOf; rw [hk']
        have hkp : akeyOf w p = some (m, chain) := by unfold akeyOf; rw [hres]
        have hne := apairB_get hpair hq2 hmem hqp
        have hkk : k' ≠ (m, chain) := by
          intro hh
          rw [hkq, hkp, hh] at hne
          exact hne rfl
        refine ⟨k', hk', ?_⟩
        rw [dlookup_dremove_ne hkk]
        exact hs'
      · exact apairB_filter _ hpair

/-- Any single operation that neither raises IndexError nor performs a
foreign pop preserves the invariant and key-distinctness. -/
theorem astep_preserves {w : AWorld} {s : HM} {op : AOp}
    (hinv : ainvB w s = true) (hpair : apairB w s.hooked = true)
    (hbad : aopBad w s op = false)
    (hidx : (astep w s op).err ≠ some .indexError) :
    ainvB (astep w s op).world (astep w s op).hm = true ∧
    apairB (astep w s op).world (astep w s op).hm.hooked = true := by
  cases op with
  | hookOp p => exact ahook_preserves hinv hpair
  | patchPrintOp p msg => exact apatch_print_preserves hinv hpair
  | patchFnOp p f => exact apatch_function_preserves hinv hpair
  | restoreOp p => exact arestore_preserves hinv hpair hbad hidx
  | detachOp p => exact aunhook_target_preserves hinv hpair hbad

/-- A whole sequence of operations whose run flag stays false (no
IndexError, no foreign pop) preserves the invariant and
key-distinctness. -/
theorem arunOps_preserves {ops : List AOp} :
    ∀ {w : AWorld} {s : HM}, ainvB w s = true → apairB w s.hooked = true →
      (arunOps w s ops).2.2 = false →
      ainvB (arunOps w s ops).2.1 (arunOps w s ops).1 = true ∧
      apairB (arunOps w s ops).2.1 (arunOps w s ops).1.hooked = true := by
  induction ops with
  | nil => intro w s hinv hpair _; exact ⟨hinv, hpair⟩
  | cons op rest ih =>
    intro w s hinv hpair hflag
    simp only [arunOps] at hflag ⊢
    obtain ⟨h4, hrest⟩ := Bool.or_eq_false_iff.mp hflag
    obtain ⟨hb, hidx0⟩ := Bool.or_eq_false_iff.mp h4
    have hidx : (astep w s op).err ≠ some .indexError := by
      intro hh
      rw [hh] at hidx0
      simp at hidx0
    obtain ⟨hi2, hp2⟩ := astep_preserves hinv hpair hb hidx
    exact ih hi2 hp2 hrest

/-- Module name used by the concrete test world. -/
def cM : Str := "m".data

/-- Attribute name used by the concrete test world. -/
def cA : Str := "a".data

/-- The dotted path `m.a`. -/
def cMA : Str := "m.a".data

/-- The resolved key of `m.a`. -/
def keyMA : Key := (cM, [cA])

/-- The resolved key of the bare module path `m`. -/
def keyM : Key := (cM, [])

/-- The default wrapper message. -/
def hiStr : Str := "hi".data

/-- The empty manager state. -/
def hm0 : HM := ⟨[], []⟩

/-- A world with module `m` carrying attribute `a`. -/
def cwBase : World := ⟨[cM], [(keyMA, .prim 5)], false⟩

/-- A world with module `m` and no attribute slots. -/
def cwMod : World := ⟨[cM], [], false⟩

/-- A world with no importable modules at all. -/
def cwNone : World := ⟨[], [], false⟩

/-- A world whose live slot for `m.a` holds a patched value. -/
def cw1 : World := ⟨[cM], [(keyMA, .vnat 1)], false⟩

/-- A store recording `m.a` with a stale original differing from the
live value of `cw1`. -/
def cs1 : HM := ⟨[(keyMA, .vnat 0)], [cMA]⟩

/-- A world where both `os` and `os.path` import. -/
def cw2 : World := ⟨["os".data, "os.path".data], [], false⟩

/-- The dotted path `os.path.join`. -/
def cP2 : Str := "os.path.join".data

/-- A dotted path none of whose prefixes imports in `cwNone`. -/
def cP8 : Str := "nosuch.mod".data

/-- A manager state already hooked on `m.a`. -/
def cs5 : HM := ⟨[(keyMA, .prim 9)], [cMA]⟩

/-- A manager state holding a module-level record for `m`. -/
def cs10 : HM := ⟨[(keyM, .vmod cM)], [cM]⟩

/-- The module name `os`. -/
def osStr : Str := "os".data

/-- The module name `os.path`. -/
def osPathStr : Str := "os.path".data

/-- The module name `posixpath`. -/
def posixStr : Str := "posixpath".data

/-- The dotted path `os.path.join`. -/
def osPathJoin : Str := "os.path.join".data

/-- The dotted path `posixpath.join`. -/
def posixJoin : Str := "posixpath.join".data

/-- The attribute name `join`. -/
def joinA : Str := "join".data

/-- An aliased world mirroring CPython: `os.path` and `posixpath` are
two importable names of one module object carrying attribute `join`. -/
def aw9 : AWorld :=
  ⟨[osStr, osPathStr, posixStr], [(osPathStr, posixStr)],
   [((posixStr, [joinA]), .prim 1)], false⟩

/-- A well-behaved sequence on the aliased world: hook, patch and
restore, all through the path `os.path.join`. -/
def aops9 : List AOp :=
  [.hookOp osPathJoin, .patchPrintOp osPathJoin hiStr, .restoreOp osPathJoin]

/-- An intervening patch between two hooks. -/
def ops7 : List Op := [.patchPrintOp cMA hiStr]

/-- C1: `restore_all` (`HookManager.unhook`) fails with NotPatched on an
empty store; on a non-empty store it clears every record and hooked
marker but does not write any stored original back: the world (and hence
every live attribute) is returned unchanged. -/
theorem claim_C1 (w : World) (s : HM) :
    (s.originals = [] → unhook w s = ⟨s, w, some .notPatched⟩) ∧
    (s.originals ≠ [] → unhook w s = ⟨⟨[], []⟩, w, none⟩) := by
  constructor
  · intro h
    simp [unhook, h]
  · intro h
    simp [unhook, h]

/-- C1 counterexample: on a non-empty store whose live slot differs from
the stored original, `restore_all` completes without error yet the live
attribute still holds the patched value, not the stored original — the
claimed write-back does not happen. -/
theorem claim_C1_cex :
    dlookup keyMA cs1.originals = some (.vnat 0) ∧
    (unhook cw1 cs1).err = none ∧
    (unhook cw1 cs1).world = cw1 ∧
    getAttr (unhook cw1 cs1).world cM [cA] = some (.vnat 1) ∧
    Value.vnat 1 ≠ Value.vnat 0 := by
  decide

/-- C1 witness: the amended theorem applied to the concrete non-empty
store. -/
theorem claim_C1_witness :
    cs1.originals ≠ [] ∧ unhook cw1 cs1 = ⟨⟨[], []⟩, cw1, none⟩ :=
  ⟨by decide, (claim_C1 cw1 cs1).2 (by decide)⟩

/-- C2: whenever some candidate prefix of a dotted path imports,
`_resolve_target` returns the longest importable prefix as the module
and the exact remaining suffix parts, in order, as the attribute
chain. -/
theorem claim_C2 (w : World) (p : Str) (i0 : Nat)
    (h1 : 1 ≤ i0) (h2 : i0 ≤ (splitD p).length)
    (h3 : importOkB w (candidate p i0) = true) :
    ∃ i, 1 ≤ i ∧ i ≤ (splitD p).length ∧ importOkB w (candidate p i) = true ∧
      (∀ j, j ≤ (splitD p).length → i < j → importOkB w (candidate p j) = false) ∧
      resolve w p = .ok (candidate p i, (splitD p).drop i) := by
  obtain ⟨i, hi1, hi2, hok, hmax, hres⟩ := resolveAux_longest (le_refl _) h1 h2 h3
  exact ⟨i, hi1, hi2, hok, fun j hj1 hj2 => hmax j hj1 hj2, hres⟩

/-- C2 witness: `os.path.join` against a world where `os` and `os.path`
import; the longest importable prefix `os.path` wins. -/
theorem claim_C2_witness :
    1 ≤ 1 ∧ 1 ≤ (splitD cP2).length ∧ importOkB cw2 (candidate cP2 1) = true ∧
    (∃ i, 1 ≤ i ∧ i ≤ (splitD cP2).length ∧ importOkB cw2 (candidate cP2 i) = true ∧
      (∀ j, j ≤ (splitD cP2).length → i < j → importOkB cw2 (candidate cP2 j) = false) ∧
      resolve cw2 cP2 = .ok (candidate cP2 i, (splitD cP2).drop i)) :=
  ⟨by decide, by decide, by decide, claim_C2 cw2 cP2 1 (by decide) (by decide) (by decide)⟩

/-- C3 (amended): for every resolvable path with a non-empty attribute
chain, hook followed by any patch calls followed by restore leaves the
live attribute holding exactly the value captured at hook time, with no
record for the key and no hooked marker.  (For a path resolving to a
module itself the restore raises IndexError and leaves the marker, see
C10.) -/
theorem claim_C3 (w : World) (s : HM) (p m : Str) (chain : List Str) (v0 : Value)
    (pcs : List PatchCall)
    (hres : resolve w p = .ok (m, chain)) (hch : chain ≠ [])
    (hno : dlookup (m, chain) s.originals = none)
    (hget : getAttr w m chain = some v0) :
    (hook w s p).err = none ∧
    (hookPatchRestore w s p pcs).err = none ∧
    getAttr (hookPatchRestore w s p pcs).world m chain = some v0 ∧
    dlookup (m, chain) (hookPatchRestore w s p pcs).hm.originals = none ∧
    p ∉ (hookPatchRestore w s p pcs).hm.hooked := by
  have he1 := hook_fresh hres hno hget
  have hw : (hook w s p).world = w := hook_world w s p
  have hsw1 : (runPatches (hook w s p).world (hook w s p).hm p pcs).1 =
      (hook w s p).hm := runPatches_hm
  have himp : (runPatches (hook w s p).world (hook w s p).hm p pcs).2.importable =
      w.importable := by
    rw [runPatches_importable, hw]
  have hres3 : resolve (runPatches (hook w s p).world (hook w s p).hm p pcs).2 p =
      .ok (m, chain) := by
    rw [resolve_congr himp p]
    exact hres
  have hlook3 : dlookup (m, chain)
      (runPatches (hook w s p).world (hook w s p).hm p pcs).1.originals = some v0 := by
    rw [hsw1, he1]
    exact dlookup_dinsert_self _ _ _
  have he3 := restore_ok hres3 hlook3 hch
  refine ⟨by rw [he1], ?_, ?_, ?_, ?_⟩
  · unfold hookPatchRestore
    rw [he3]
  · unfold hookPatchRestore
    simp only [he3]
    rw [getAttr_ne_nil hch]
    exact dlookup_dinsert_self _ _ _
  · unfold hookPatchRestore
    simp only [he3]
    exact dlookup_dremove_self _ _
  · unfold hookPatchRestore
    simp only [he3]
    exact not_mem_setDiscard_self _ _

/-- C3 counterexample: for the bare module path `m` (resolvable, empty
attribute chain) the hook succeeds but the restore raises IndexError and
leaves the hooked marker behind, so the claim fails as universally
stated over all resolvable paths. -/
theorem claim_C3_cex :
    resolve cwMod cM = .ok (cM, []) ∧
    (hook cwMod hm0 cM).err = none ∧
    (hookPatchRestore cwMod hm0 cM []).err = some .indexError ∧
    cM ∈ (hookPatchRestore cwMod hm0 cM []).hm.hooked := by
  decide

/-- C3 witness: hook `m.a`, patch it once with the print wrapper, then
restore; the live slot again holds the captured original `prim 5`. -/
theorem claim_C3_witness :
    resolve cwBase cMA = .ok (cM, [cA]) ∧
    ((hook cwBase hm0 cMA).err = none ∧
     (hookPatchRestore cwBase hm0 cMA [.pr hiStr]).err = none ∧
     getAttr (hookPatchRestore cwBase hm0 cMA [.pr hiStr]).world cM [cA] =
       some (.prim 5) ∧
     dlookup (cM, [cA]) (hookPatchRestore cwBase hm0 cMA [.pr hiStr]).hm.originals =
       none ∧
     cMA ∉ (hookPatchRestore cwBase hm0 cMA [.pr hiStr]).hm.hooked) :=
  ⟨by decide,
   claim_C3 cwBase hm0 cMA cM [cA] (.prim 5) [.pr hiStr]
     (by decide) (by decide) (by decide) (by decide)⟩

/-- C4: after a `patch_print` on a hooked path (non-empty chain), the
live attribute is the wrapper closing over the stored original; calling
it emits the configured message first and then returns exactly what the
stored original returns for the same arguments, and the record itself is
untouched. -/
theorem claim_C4 (w : World) (s : HM) (p msg m : Str) (chain : List Str)
    (orig : Value) (args : List Nat)
    (hres : resolve w p = .ok (m, chain))
    (hsome : dlookup (m, chain) s.originals = some orig)
    (hch : chain ≠ []) :
    (patch_print w s p msg).err = none ∧
    (patch_print w s p msg).hm = s ∧
    getAttr (patch_print w s p msg).world m chain = some (.printWrap msg orig) ∧
    callValue (.printWrap msg orig) args =
      (callValue orig args).map (fun o => (msg :: o.1, o.2)) := by
  have he := @patch_print_ok w s p m msg chain orig hres hsome hch
  refine ⟨by rw [he], by rw [he], ?_, rfl⟩
  rw [he, getAttr_ne_nil hch]
  exact dlookup_dinsert_self _ _ _

/-- C4 witness: patching `m.a` (original `prim 9`) and calling the
wrapper with `[1, 2]` prints `hi` and returns `primSem 9 [1, 2] = 12`,
exactly the original result. -/
theorem claim_C4_witness :
    dlookup (cM, [cA]) cs5.originals = some (.prim 9) ∧
    ((patch_print cwBase cs5 cMA hiStr).err = none ∧
     (patch_print cwBase cs5 cMA hiStr).hm = cs5 ∧
     getAttr (patch_print cwBase cs5 cMA hiStr).world cM [cA] =
       some (.printWrap hiStr (.prim 9)) ∧
     callValue (.printWrap hiStr (.prim 9)) [1, 2] =
       (callValue (.prim 9) [1, 2]).map (fun o => (hiStr :: o.1, o.2))) :=
  ⟨by decide,
   claim_C4 cwBase cs5 cMA hiStr cM [cA] (.prim 9) [1, 2]
     (by decide) (by decide) (by decide)⟩

/-- C5: `unhook_target` on a path with an existing record removes the
record and the marker and returns the world unchanged — nothing is
written back, so the live attribute keeps whatever value it held. -/
theorem claim_C5 (w : World) (s : HM) (p m : Str) (chain : List Str)
    (hres : resolve w p = .ok (m, chain))
    (hs : (dlookup (m, chain) s.originals).isSome = true) :
    unhook_target w s p =
      ⟨⟨dremove (m, chain) s.originals, setDiscard p s.hooked⟩, w, none⟩ ∧
    dlookup (m, chain) (unhook_target w s p).hm.originals = none ∧
    p ∉ (unhook_target w s p).hm.hooked := by
  obtain ⟨v, hv⟩ := Option.isSome_iff_exists.mp hs
  have he := unhook_target_ok hres hv
  refine ⟨he, ?_, ?_⟩
  · simp only [he]
    exact dlookup_dremove_self _ _
  · simp only [he]
    exact not_mem_setDiscard_self _ _

/-- C5 witness: detaching the hooked `m.a` (live slot `prim 5`) drops
the record and marker and leaves the world — hence the live value —
untouched. -/
theorem claim_C5_witness :
    (dlookup (cM, [cA]) cs5.originals).isSome = true ∧
    (unhook_target cwBase cs5 cMA =
       ⟨⟨dremove (cM, [cA]) cs5.originals, setDiscard cMA cs5.hooked⟩, cwBase, none⟩ ∧
     dlookup (cM, [cA]) (unhook_target cwBase cs5 cMA).hm.originals = none ∧
     cMA ∉ (unhook_target cwBase cs5 cMA).hm.hooked) :=
  ⟨by decide, claim_C5 cwBase cs5 cMA cM [cA] (by decide) (by decide)⟩

/-- C6: on a resolvable path whose key has no record, `patch_print`,
`patch_function`, `restore` and `unhook_target` all fail with the typed
NotHooked error and leave the manager state and the world (hence every
live attribute) unchanged. -/
theorem claim_C6 (w : World) (s : HM) (p msg : Str) (f : Value) (m : Str)
    (chain : List Str)
    (hres : resolve w p = .ok (m, chain))
    (hno : dlookup (m, chain) s.originals = none) :
    patch_print w s p msg = ⟨s, w, some .notHooked⟩ ∧
    patch_function w s p f = ⟨s, w, some .notHooked⟩ ∧
    restore w s p = ⟨s, w, some .notHooked⟩ ∧
    unhook_target w s p = ⟨s, w, some .notHooked⟩ :=
  ⟨patch_print_not_hooked hres hno, patch_function_not_hooked hres hno,
   restore_not_hooked hres hno, unhook_target_not_hooked hres hno⟩

/-- C6 witness: all four operations on the un-hooked `m.a` fail with
NotHooked and change nothing. -/
theorem claim_C6_witness :
    dlookup (cM, [cA]) hm0.originals = none ∧
    (patch_print cwBase hm0 cMA hiStr = ⟨hm0, cwBase, some .notHooked⟩ ∧
     patch_function cwBase hm0 cMA (.prim 0) = ⟨hm0, cwBase, some .notHooked⟩ ∧
     restore cwBase hm0 cMA = ⟨hm0, cwBase, some .notHooked⟩ ∧
     unhook_target cwBase hm0 cMA = ⟨hm0, cwBase, some .notHooked⟩) :=
  ⟨by decide,
   claim_C6 cwBase hm0 cMA hiStr (.prim 0) cM [cA] (by decide) (by decide)⟩

/-- C7: after a successful hook, and any further operations that are
neither restore nor detach, hooking a second path resolving to the same
key fails with AlreadyHooked and leaves the manager state (stored
original and hooked set) unchanged. -/
theorem claim_C7 (w : World) (s : HM) (p1 p2 : Str) (k : Key) (ops : List Op)
    (h1 : resolve w p1 = .ok k) (h2 : resolve w p2 = .ok k)
    (hok : (hook w s p1).err = none) (hno : noUnhookOps ops = true) :
    hook (runOps (hook w s p1).world (hook w s p1).hm ops).2.1
        (runOps (hook w s p1).world (hook w s p1).hm ops).1 p2 =
      ⟨(runOps (hook w s p1).world (hook w s p1).hm ops).1,
       (runOps (hook w s p1).world (hook w s p1).hm ops).2.1,
       some .alreadyHooked⟩ := by
  obtain ⟨m, chain⟩ := k
  cases hlook : dlookup (m, chain) s.originals with
  | some v =>
    have hy : (dlookup (m, chain) s.originals).isSome = true := by rw [hlook]; rfl
    rw [hook_already h1 hy] at hok
    simp at hok
  | none =>
    cases hget : getAttr w m chain with
    | none =>
      rw [hook_attr_err h1 hlook hget] at hok
      simp at hok
    | some v =>
      have hkey1 : (dlookup (m, chain) (hook w s p1).hm.originals).isSome = true := by
        simp only [hook_fresh h1 hlook hget]
        rw [dlookup_dinsert_self]
        rfl
      have hkey : (dlookup (m, chain)
          (runOps (hook w s p1).world (hook w s p1).hm ops).1.originals).isSome =
          true := runOps_keeps_key hno hkey1
      have himp : (runOps (hook w s p1).world (hook w s p1).hm ops).2.1.importable =
          w.importable := by
        rw [runOps_importable, hook_world]
      have hres2 : resolve (runOps (hook w s p1).world (hook w s p1).hm ops).2.1 p2 =
          .ok (m, chain) := by
        rw [resolve_congr himp p2]
        exact h2
      exact hook_already hres2 hkey

/-- C7 witness: hook `m.a`, patch it, then hook `m.a` again — the second
hook fails with AlreadyHooked and leaves everything as it was. -/
theorem claim_C7_witness :
    (hook cwBase hm0 cMA).err = none ∧
    noUnhookOps ops7 = true ∧
    hook (runOps (hook cwBase hm0 cMA).world (hook cwBase hm0 cMA).hm ops7).2.1
        (runOps (hook cwBase hm0 cMA).world (hook cwBase hm0 cMA).hm ops7).1 cMA =
      ⟨(runOps (hook cwBase hm0 cMA).world (hook cwBase hm0 cMA).hm ops7).1,
       (runOps (hook cwBase hm0 cMA).world (hook cwBase hm0 cMA).hm ops7).2.1,
       some .alreadyHooked⟩ :=
  ⟨by decide, by decide,
   claim_C7 cwBase hm0 cMA cMA keyMA ops7 (by decide) (by decide) (by decide)
     (by decide)⟩

/-- C8 (amended): when no candidate prefix imports and the single-part
candidate is non-empty, `_resolve_target` raises the final
ModuleNotFoundError; for a path whose first part is empty (such as the
empty path) the failure is instead the untyped ValueError from
`importlib.import_module("")`, which the loop does not catch. -/
theorem claim_C8 (w : World) (p : Str)
    (hall : ∀ j, j ≤ (splitD p).length → 1 ≤ j → importOkB w (candidate p j) = false)
    (hhead : (splitD p).head? ≠ some []) :
    resolve w p = .error .moduleNotFound :=
  resolveAux_notFound (le_refl _) hhead (fun j hj1 hj2 => hall j hj1 hj2)

/-- C8 counterexample: the empty path has no importable prefix, yet
`resolve` fails with ValueError rather than the claimed module-not-found
error. -/
theorem claim_C8_cex :
    importOkB cwNone (candidate [] 1) = false ∧
    resolve cwNone [] = .error .valueError ∧
    RErr.valueError ≠ RErr.moduleNotFound := by
  decide

/-- C8 witness: `nosuch.mod` in the world with no importable modules
falls through to the final ModuleNotFoundError. -/
theorem claim_C8_witness :
    (∀ j, j ≤ (splitD cP8).length → 1 ≤ j → importOkB cwNone (candidate cP8 j) = false) ∧
    (splitD cP8).head? ≠ some [] ∧
    resolve cwNone cP8 = .error .moduleNotFound :=
  ⟨by decide, by decide, claim_C8 cwNone cP8 (by decide) (by decide)⟩

/-- C9 (amended): with module-object keys, the HookedSet/HookRecord
consistency invariant — every hooked path resolves to a key with a
record — strengthened by the requirement that the marked paths resolve
to pairwise-distinct keys (true in every state reachable from an empty
manager, since `hook` only marks a path whose key is fresh), is
preserved by every sequence of hook, patch, restore and detach
operations in which no operation raises the untyped IndexError and no
restore or detach pops a record through a path that is not itself in
the hooked set.  Module-name aliasing makes both provisos necessary:
see the counterexample. -/
theorem claim_C9 (w : AWorld) (s : HM) (ops : List AOp)
    (hinv : ainvB w s = true) (hpair : apairB w s.hooked = true)
    (hflag : (arunOps w s ops).2.2 = false) :
    ainvB (arunOps w s ops).2.1 (arunOps w s ops).1 = true ∧
    apairB (arunOps w s ops).2.1 (arunOps w s ops).1.hooked = true :=
  arunOps_preserves hinv hpair hflag

/-- C9 counterexample: in CPython `os.path` and `posixpath` name one
module object, so the two distinct paths resolve to the same store key;
`hook "os.path.join"` followed by `restore "posixpath.join"` completes
without any error, pops the shared record, and the final
`hooked.discard("posixpath.join")` leaves `"os.path.join"` marked with
no record — the invariant as stated over all operation sequences
fails, and with no IndexError involved. -/
theorem claim_C9_cex :
    osPathJoin ≠ posixJoin ∧
    aresolve aw9 osPathJoin = .ok (posixStr, [joinA]) ∧
    aresolve aw9 posixJoin = .ok (posixStr, [joinA]) ∧
    ainvB aw9 hm0 = true ∧
    (ahook aw9 hm0 osPathJoin).err = none ∧
    (arestore (ahook aw9 hm0 osPathJoin).world (ahook aw9 hm0 osPathJoin).hm
      posixJoin).err = none ∧
    ainvB
      (arestore (ahook aw9 hm0 osPathJoin).world (ahook aw9 hm0 osPathJoin).hm
        posixJoin).world
      (arestore (ahook aw9 hm0 osPathJoin).world (ahook aw9 hm0 osPathJoin).hm
        posixJoin).hm = false := by
  decide

/-- C9 witness: the same aliased world driven only through
`os.path.join` raises nothing, performs no foreign pop, and preserves
both the invariant and key-distinctness. -/
theorem claim_C9_witness :
    ainvB aw9 hm0 = true ∧
    apairB aw9 hm0.hooked = true ∧
    (arunOps aw9 hm0 aops9).2.2 = false ∧
    (ainvB (arunOps aw9 hm0 aops9).2.1 (arunOps aw9 hm0 aops9).1 = true ∧
     apairB (arunOps aw9 hm0 aops9).2.1 (arunOps aw9 hm0 aops9).1.hooked = true) :=
  ⟨by decide, by decide, by decide,
   claim_C9 aw9 hm0 aops9 (by decide) (by decide) (by decide)⟩

/-- C10 (amended): hooking a path that resolves to a module itself
(empty attribute chain) succeeds and records the module object; a
subsequent restore, `patch_print` or `patch_function` on that key
reaches `_set_attr` with an empty chain and raises the untyped
IndexError; `restore_all` (`unhook`), which performs no write-back,
completes without error instead. -/
theorem claim_C10 (w : World) (s : HM) (p m msg : Str) (f : Value)
    (hres : resolve w p = .ok (m, []))
    (hno : dlookup (m, []) s.originals = none) :
    (hook w s p).err = none ∧
    dlookup (m, []) (hook w s p).hm.originals = some (.vmod m) ∧
    (restore (hook w s p).world (hook w s p).hm p).err = some .indexError ∧
    (patch_print (hook w s p).world (hook w s p).hm p msg).err = some .indexError ∧
    (patch_function (hook w s p).world (hook w s p).hm p f).err = some .indexError ∧
    (unhook (hook w s p).world (hook w s p).hm).err = none := by
  have hget : getAttr w m ([] : List Str) = some (.vmod m) := rfl
  have he := hook_fresh hres hno hget
  have hsome : dlookup (m, ([] : List Str)) (hook w s p).hm.originals =
      some (.vmod m) := by
    simp only [he]
    exact dlookup_dinsert_self _ _ _
  have hw : (hook w s p).world = w := hook_world w s p
  have hres2 : resolve (hook w s p).world p = .ok (m, []) := by rw [hw]; exact hres
  refine ⟨by rw [he], hsome, ?_, ?_, ?_, ?_⟩
  · rw [restore_module hres2 hsome]
  · rw [patch_print_module hres2 hsome]
  · rw [patch_function_module hres2 hsome]
  · simp only [he]
    simp [unhook, dinsert]

/-- C10 counterexample: with a module-level record in the store,
`restore_all` completes with no error — it never reaches `_set_attr`,
contradicting the claim that it raises IndexError on such a key. -/
theorem claim_C10_cex :
    dlookup keyM cs10.originals = some (.vmod cM) ∧
    (unhook cwMod cs10).err = none ∧
    (unhook cwMod cs10).err ≠ some HErr.indexError := by
  decide

/-- C10 witness: the amended theorem on the bare module path `m`. -/
theorem claim_C10_witness :
    resolve cwMod cM = .ok (cM, []) ∧
    ((hook cwMod hm0 cM).err = none ∧
     dlookup (cM, []) (hook cwMod hm0 cM).hm.originals = some (.vmod cM) ∧
     (restore (hook cwMod hm0 cM).world (hook cwMod hm0 cM).hm cM).err =
       some .indexError ∧
     (patch_print (hook cwMod hm0 cM).world (hook cwMod hm0 cM).hm cM hiStr).err =
       some .indexError ∧
     (patch_function (hook cwMod hm0 cM).world (hook cwMod hm0 cM).hm cM
       (.prim 0)).err = some .indexError ∧
     (unhook (hook cwMod hm0 cM).world (hook cwMod hm0 cM).hm).err = none) :=
  ⟨by decide,
   claim_C10 cwMod hm0 cM cM hiStr (.prim 0) (by decide) (by decide)⟩

end HookM

